import Mathlib

/-! # escview: diagnostic overlay engine

A shallow embedding of `main.go`: `processLines` (the diagnostic parser) and
`zipFile` (the annotation merger), together with the library behaviour they
rely on (`bufio.Scanner` with `bufio.ScanLines`, `strconv.Atoi`,
`filepath.Clean` and the two `regexp` calls).

Go strings and byte slices are lists of bytes; a byte is a natural number
(10 is the line feed, 13 the carriage return, 58 the colon, 47 the slash,
46 the dot, 32 the space).  Go `int` is modelled by `Int` (64-bit range checks
are explicit in `Atoi`).  A Go result pair `(value, error)` is a pair whose
second component is `none` for the nil error.
-/

namespace Escview

/-! ## Bytes and literals -/

/-- The bytes of an ASCII string literal. -/
def str (s : String) : List Nat := s.toList.map Char.toNat

/-! ## bufio.Scanner with bufio.ScanLines -/

/-- The constant `bufio.MaxScanTokenSize`: the scanner's buffer never grows
beyond this many bytes. -/
def MaxScanTokenSize : Nat := 65536

/-- The helper `dropCR` of `bufio`: drops one trailing carriage return. -/
def dropCR (data : List Nat) : List Nat :=
  match data.getLast? with
  | some 13 => data.dropLast
  | _ => data

/-- The run of `for scanner.Scan()` over `data`, where `cur` holds the bytes
already buffered for the current line.  The result is the list of tokens
returned by `scanner.Text()` and whether `scanner.Err()` is non-nil afterwards
(it can only be `bufio.ErrTooLong`, the reader being a `bytes.Reader`).

A line is delivered when its terminating line feed (or the end of the data)
is inside the buffer; when `MaxScanTokenSize` bytes are buffered without a line
feed the scanner stops with `ErrTooLong`.  An empty final line is no token. -/
def scanFrom : List Nat → List Nat → List (List Nat) × Bool
  | [], cur =>
    if MaxScanTokenSize ≤ cur.length then ([], true)
    else if cur = [] then ([], false)
    else ([dropCR cur], false)
  | c :: rest, cur =>
    if c = 10 then
      if MaxScanTokenSize ≤ cur.length then ([], true)
      else (dropCR cur :: (scanFrom rest []).1, (scanFrom rest []).2)
    else scanFrom rest (cur ++ [c])

/-- The tokens and the final error state of a fresh scanner over `data`. -/
def scanLines (data : List Nat) : List (List Nat) × Bool := scanFrom data []

/-! ## strconv.Atoi -/

/-- Decimal value of a run of ASCII digits, continuing from `acc`; `none` when a
byte is not a digit. -/
def parseDigits : List Nat → Nat → Option Nat
  | [], acc => some acc
  | c :: rest, acc =>
    if 48 ≤ c ∧ c ≤ 57 then parseDigits rest (acc * 10 + (c - 48)) else none

/-- The function `strconv.Atoi` on a 64-bit platform: an optional sign, at
least one digit, only digits, and a value inside the `int` range.  `none`
stands for a non-nil error. -/
def Atoi (s : List Nat) : Option Int :=
  match s with
  | [] => none
  | c :: t =>
    let body := if c = 45 ∨ c = 43 then t else s
    if body = [] then none
    else
      match parseDigits body 0 with
      | none => none
      | some v =>
        if c = 45 then (if v ≤ 2 ^ 63 then some (-(v : Int)) else none)
        else (if v < 2 ^ 63 then some (v : Int) else none)

/-! ## filepath.Clean (Unix) -/

/-- The path elements between separators (`/`). -/
def splitSlash : List Nat → List (List Nat)
  | [] => [[]]
  | c :: t =>
    if c = 47 then [] :: splitSlash t
    else
      match splitSlash t with
      | [] => [[c]]
      | s :: ss => (c :: s) :: ss

/-- The main loop of `filepath.Clean` taken element by element.  `dots` counts
the leading `..` elements already written (the region below `dotdot`),
`out` holds the real elements written after them. -/
def cleanLoop (rooted : Bool) : List (List Nat) → Nat → List (List Nat) → Nat × List (List Nat)
  | [], dots, out => (dots, out)
  | e :: rest, dots, out =>
    if e = [] then cleanLoop rooted rest dots out
    else if e = [46] then cleanLoop rooted rest dots out
    else if e = [46, 46] then
      if out ≠ [] then cleanLoop rooted rest dots out.dropLast
      else if !rooted then cleanLoop rooted rest (dots + 1) out
      else cleanLoop rooted rest dots out
    else cleanLoop rooted rest dots (out ++ [e])

/-- Elements joined by single separators. -/
def joinSlash : List (List Nat) → List Nat
  | [] => []
  | [e] => e
  | e :: rest => e ++ 47 :: joinSlash rest

/-- The function `filepath.Clean` for slash-separated paths. -/
def Clean (path : List Nat) : List Nat :=
  if path = [] then [46]
  else
    let rooted := path.head? = some 47
    let r := cleanLoop rooted (splitSlash path) 0 []
    let elems := List.replicate r.1 [46, 46] ++ r.2
    if rooted then 47 :: joinSlash elems
    else if elems = [] then [46]
    else joinSlash elems

/-! ## The line pattern of processLines -/

/-- ASCII digit, the class `\d` of Go regular expressions. -/
def isDigit (c : Nat) : Bool := decide (48 ≤ c) && decide (c ≤ 57)

/-- Not a colon, the class `[^:]`. -/
def notColon (c : Nat) : Bool := decide (c ≠ 58)

/-- The call `lineRegex.FindStringSubmatch(text)` for
`lineRegex = ^([^:]+):(\d+):(\d+): (.*)$`, returning the four groups.

The pattern is anchored at both ends and every group is delimited by a byte its
class excludes, so there is at most one way to match: group 1 is the non-empty
text before the first colon, groups 2 and 3 are non-empty digit runs each closed
by a colon, a space follows, and group 4 is the rest, which `.` restricts to
bytes other than the line feed. -/
def lineRegexFind (text : List Nat) : Option (List Nat × List Nat × List Nat × List Nat) :=
  let file := text.takeWhile notColon
  if file = [] then none
  else
    match text.dropWhile notColon with
    | 58 :: r1 =>
      let ln := r1.takeWhile isDigit
      if ln = [] then none
      else
        match r1.dropWhile isDigit with
        | 58 :: r2 =>
          let col := r2.takeWhile isDigit
          if col = [] then none
          else
            match r2.dropWhile isDigit with
            | 58 :: 32 :: msg => if 10 ∈ msg then none else some (file, ln, col, msg)
            | _ => none
        | _ => none
    | _ => none

/-! ## Go maps -/

/-- Lookup `m[k]` in a map kept as a list of entries with distinct keys. -/
def mapGet {K V : Type} [DecidableEq K] : List (K × V) → K → Option V
  | [], _ => none
  | (k', v) :: m, k => if k' = k then some v else mapGet m k

/-- Assignment `m[k] = v`: overwrite the entry of `k` or add one. -/
def mapSet {K V : Type} [DecidableEq K] : List (K × V) → K → V → List (K × V)
  | [], k, v => [(k, v)]
  | (k', v') :: m, k, v => if k' = k then (k', v) :: m else (k', v') :: mapSet m k v

/-! ## processLines -/

set_option linter.dupNamespace false in
/-- The key type `line` of `main.go`. -/
structure line where
  file : List Nat
  line : Int
deriving DecidableEq, Repr

/-- The type `map[pos]string`, `pos` being an `int`. -/
abbrev PosMap := List (Int × List Nat)

/-- The type `map[line]map[pos]string`. -/
abbrev Index := List (line × PosMap)

instance decEqPosMap : DecidableEq PosMap := inferInstance

instance decEqIndex : DecidableEq Index := inferInstance

/-- The statements of the `if matches != nil` body after both numbers parsed:
create the inner map when the key is new, then append to or create the entry
of the column. -/
def addFragment (result : Index) (key : line) (p : Int) ( annotation : List Nat) : Index :=
  let result1 := if (mapGet result key).isNone then mapSet result key [] else result
  let inner := (mapGet result1 key).getD []
  match mapGet inner p with
  | some existing => mapSet result1 key (mapSet inner p (existing ++ str "\n" ++ annotation))
  | none => mapSet result1 key (mapSet inner p annotation)

/-- The loop `for scanner.Scan()` of `processLines` over the scanned tokens,
followed by `return result, nil`.  The pair is the Go result `(map, error)`:
`none` in the first component is the nil map, `none` in the second the nil
error. -/
def processLoop : List (List Nat) → Index → Option Index × Option (List Nat)
  | [], result => (some result, none)
  | text :: rest, result =>
    match lineRegexFind text with
    | none => processLoop rest result
    | some (fileStr, m2, m3, annotation) =>
      match Atoi m2 with
      | none => (none, some (str "invalid line number in: " ++ text))
      | some lineNum =>
        match Atoi m3 with
        | none => (none, some (str "invalid line pos in: " ++ text))
        | some posNum =>
          processLoop rest (addFragment result ⟨Clean fileStr, lineNum⟩ posNum annotation)

/-- The function `processLines` of `main.go`.  The scanner's error state is
never consulted: the loop just ends when `Scan` returns false. -/
def processLines (data : List Nat) : Option Index × Option (List Nat) :=
  processLoop (scanLines data).1 []

/-! ## zipFile -/

/-- A compiled `*regexp.Regexp`, given by the location of its leftmost match
(`FindStringIndex`); `none` when the text holds no match. -/
structure Regexp where
  FindStringIndex : List Nat → Option (Nat × Nat)

/-- The method `MatchString`: whether the text contains any match. -/
def Regexp.MatchString (re : Regexp) (s : List Nat) : Bool :=
  (re.FindStringIndex s).isSome

/-- The method `FindString`: the text of the leftmost match, the empty string
when there is none. -/
def Regexp.FindString (re : Regexp) (s : List Nat) : List Nat :=
  match re.FindStringIndex s with
  | some (a, b) => (s.drop a).take (b - a)
  | none => []

/-- The order in which `range` visits the entries of a column map.  Go leaves
it unspecified: every entry is visited once, in an order that may differ from
one loop to the next (here: from one source line to the next). -/
structure RangeOrder where
  visit : Int → PosMap → PosMap
  perm : ∀ n mm, (visit n mm).Perm mm

/-- The loop `for _, annotation := range mm` of `zipFile`, over the entries in
the order visited; `result` is the content of the string builder. -/
def rangeLoop (re : Regexp) : PosMap → List Nat → List Nat
  | [], result => result
  | (_, annotation) :: rest, result =>
    if !re.MatchString annotation then rangeLoop re rest result
    else
      rangeLoop re rest
        (result ++ str "/**********\n" ++ re.FindString annotation ++ str "\n***********/\n")

/-- The loop `for scanner.Scan()` of `zipFile` over the scanned tokens, with
the running `lineNumber` and the content `result` of the string builder.  A
text has far fewer than 2^63 lines, so the Go `int` counter never wraps. -/
def zipLoop (re : Regexp) (file : List Nat) (m : Index) (ord : RangeOrder) :
    List (List Nat) → Int → List Nat → List Nat
  | [], _, result => result
  | originalLine :: rest, lineNumber, result =>
    let result1 := result ++ originalLine ++ str "\n"
    let result2 :=
      match mapGet m ⟨file, lineNumber⟩ with
      | some mm => rangeLoop re (ord.visit lineNumber mm) result1
      | none => result1
    zipLoop re file m ord rest (lineNumber + 1) result2

/-- The function `zipFile` of `main.go`, returning the Go pair
`(string, error)`; `ord` is the iteration order of the `range` loops. -/
def zipFile (re : Regexp) (b : List Nat) (file : List Nat) (m : Index) (ord : RangeOrder) :
    List Nat × Option (List Nat) :=
  let result := zipLoop re file m ord (scanLines b).1 1 []
  if (scanLines b).2 then
    ([], some (str "error reading file: bufio.Scanner: token too long"))
  else (result, none)

/-- Entries visited in the order they are stored. -/
def storedOrder : RangeOrder := ⟨fun _ mm => mm, fun _ _ => List.Perm.refl _⟩

/-- Entries visited in the reverse of the order they are stored. -/
def reverseOrder : RangeOrder := ⟨fun _ mm => mm.reverse, fun _ mm => List.reverse_perm mm⟩

/-! ## The lines of a text -/

/-- The lines of a text as `bufio.ScanLines` cuts them, before `dropCR`: the
pieces between line feeds, an empty piece after the last line feed being no
line.  `cur` is the part of the current line already passed. -/
def rawFrom : List Nat → List Nat → List (List Nat)
  | [], cur => if cur = [] then [] else [cur]
  | c :: rest, cur => if c = 10 then cur :: rawFrom rest [] else rawFrom rest (cur ++ [c])

/-- The raw lines of a text. -/
def rawLines (data : List Nat) : List (List Nat) := rawFrom data []

/-- The lines of a text: its raw lines without their trailing carriage
return. -/
def textLines (data : List Nat) : List (List Nat) := (rawLines data).map dropCR

/-- Every line of the text fits the scanner's buffer. -/
def fitsScanner (data : List Nat) : Prop := ∀ l ∈ rawLines data, l.length < MaxScanTokenSize

instance (data : List Nat) : Decidable (fitsScanner data) := by
  unfold fitsScanner; infer_instance

/-! ## What a diagnostic line carries -/

/-- The key, column and message a scanned line contributes to the index, when
it matches the line pattern and both numbers parse. -/
def diagOf (text : List Nat) : Option (line × Int × List Nat) :=
  match lineRegexFind text with
  | none => none
  | some (fileStr, m2, m3, annotation) =>
    match Atoi m2, Atoi m3 with
    | some lineNum, some posNum => some (⟨Clean fileStr, lineNum⟩, posNum, annotation)
    | _, _ => none

/-- The messages, in order, of the lines that carry the triple `(key, p)`. -/
def messagesFor (texts : List (List Nat)) (key : line) (p : Int) : List (List Nat) :=
  texts.filterMap fun t =>
    match diagOf t with
    | some (k, q, msg) => if k = key ∧ q = p then some msg else none
    | none => none

/-- Messages joined by line feeds. -/
def joinLF : List (List Nat) → List Nat
  | [] => []
  | [a] => a
  | a :: rest => a ++ 10 :: joinLF rest

/-- The fragment stored for a triple, if any. -/
def lookup (m : Index) (key : line) (p : Int) : Option (List Nat) :=
  (mapGet m key).bind fun mm => mapGet mm p

/-- A fragment extended by further messages, each after a line feed. -/
def extendFragment : Option (List Nat) → List (List Nat) → Option (List Nat)
  | acc, [] => acc
  | some e, msg :: rest => extendFragment (some (e ++ 10 :: msg)) rest
  | none, msg :: rest => extendFragment (some msg) rest

/-- A non-empty run of ASCII digits. -/
def isNumeral (s : List Nat) : Prop := s ≠ [] ∧ ∀ c ∈ s, isDigit c = true

instance (s : List Nat) : Decidable (isNumeral s) := by
  unfold isNumeral; infer_instance

/-- The decimal value of a run of digits, continuing from `acc`. -/
def decimalFrom : List Nat → Nat → Nat
  | [], acc => acc
  | c :: rest, acc => decimalFrom rest (acc * 10 + (c - 48))

/-- The number a decimal numeral denotes. -/
def decimalValue (s : List Nat) : Nat := decimalFrom s 0

/-- The input of `TestProcessLines` in `main_test.go`. -/
def testProcessLinesData : List Nat :=
  str "\npkg/sql/crdb_internal.go:242:43: map[string]struct \x7b\x7d\x7b...\x7d escapes to heap:\npkg/sql/crdb_internal.go:242:43:   flow: \x7bheap\x7d = &\x7bstorage for map[string]struct \x7b\x7d\x7b...\x7d\x7d:\npkg/sql/crdb_internal.go:242:43:     from map[string]struct \x7b\x7d\x7b...\x7d (spill) at pkg/sql/crdb_internal.go:242:43\npkg/sql/crdb_internal.go:242:43:     from SupportedVTables = map[string]struct \x7b\x7d\x7b...\x7d (assign) at pkg/sql/crdb_internal.go:242:5\npkg/sql/another_file.go:100:10: something else happens here:\npkg/sql/another_file.go:100:10:   another line\npkg/sql/crdb_internal.go:300:15: a different line in the same file\n"

/-- A scanned line that matches the line pattern and whose line or column
numeral exceeds the largest `int`, 2^63 - 1. -/
def outOfRangeLine (text : List Nat) : Prop :=
  ∃ f ln col msg, lineRegexFind text = some (f, ln, col, msg)
    ∧ (2 ^ 63 ≤ decimalValue ln ∨ 2 ^ 63 ≤ decimalValue col)

/-- Whether a raw line, once scanned, matches the line pattern. -/
def isDiagnostic (raw : List Nat) : Bool := (lineRegexFind (dropCR raw)).isSome

/-- The text with every line that does not match the line pattern deleted,
together with its line feed; `cur` is the part of the current line already
passed. -/
def deleteNoiseFrom : List Nat → List Nat → List Nat
  | [], cur => if isDiagnostic cur then cur else []
  | c :: rest, cur =>
    if c = 10 then (if isDiagnostic cur then cur ++ [10] else []) ++ deleteNoiseFrom rest []
    else deleteNoiseFrom rest (cur ++ [c])

/-- The text without its noise lines. -/
def deleteNoise (data : List Nat) : List Nat := deleteNoiseFrom data []

/-- The diagnostic line `file:ln:col: msg`. -/
def diagLine (file ln col msg : List Nat) : List Nat :=
  file ++ 58 :: (ln ++ 58 :: (col ++ 58 :: 32 :: msg))

/-- A clean relative path: every element between slashes is non-empty and
neither `.` nor `..` (so there is no leading `./` and no leading or trailing
slash). -/
def isCleanRelative (P : List Nat) : Prop :=
  ∀ e ∈ splitSlash P, e ≠ [] ∧ e ≠ [46] ∧ e ≠ [46, 46]

instance (P : List Nat) : Decidable (isCleanRelative P) := by
  unfold isCleanRelative; infer_instance

/-! ## Regular expressions for the filter -/

/-- The fragment of Go's regular expression syntax that the filters used here
need.  The patterns are ASCII, so matching byte by byte agrees with matching
rune by rune. -/
inductive RE where
  | eps : RE
  | byte (c : Nat) : RE
  | cls (p : Nat → Bool) : RE
  | bol : RE
  | seq (a b : RE) : RE
  | alt (a b : RE) : RE
  | star (a : RE) : RE

/-- Greedy repetition of one matching step, at most `fuel` times; an iteration
has to consume input (the starred parts of the filter used here always do). -/
def starLoop
    (step : Option Nat → List Nat → (Option Nat → List Nat → Option (List Nat))
      → Option (List Nat)) :
    Nat → Option Nat → List Nat → (Option Nat → List Nat → Option (List Nat))
      → Option (List Nat)
  | 0, prev, s, k => k prev s
  | fuel + 1, prev, s, k =>
    match step prev s
        (fun prev1 s1 => if s1.length < s.length then starLoop step fuel prev1 s1 k else none) with
    | some r => some r
    | none => k prev s

/-- Backtracking match of `re` at the head of `s`, `prev` being the byte before
it; `k` continues with the rest of the pattern and returns the input left after
the whole match.  Alternatives are tried in the order of Go's leftmost-first
rule.  `bol` is `^` under the flag `m`: the start of the text or of a line. -/
def RE.run : RE → Option Nat → List Nat → (Option Nat → List Nat → Option (List Nat))
    → Option (List Nat)
  | .eps, prev, s, k => k prev s
  | .byte c, _, s, k =>
    match s with
    | x :: t => if x = c then k (some x) t else none
    | [] => none
  | .cls p, _, s, k =>
    match s with
    | x :: t => if p x then k (some x) t else none
    | [] => none
  | .bol, prev, s, k => if prev = none ∨ prev = some 10 then k prev s else none
  | .seq a b, prev, s, k => a.run prev s (fun prev1 s1 => b.run prev1 s1 k)
  | .alt a b, prev, s, k =>
    match a.run prev s k with
    | some r => some r
    | none => b.run prev s k
  | .star a, prev, s, k => starLoop a.run s.length prev s k

/-- The leftmost match of `re` in the text of which `s` is the part from offset
`pos` on. -/
def RE.searchFrom (re : RE) : Option Nat → List Nat → Nat → Option (Nat × Nat)
  | prev, [], pos =>
    match re.run prev [] (fun _ s1 => some s1) with
    | some _ => some (pos, pos)
    | none => none
  | prev, x :: t, pos =>
    match re.run prev (x :: t) (fun _ s1 => some s1) with
    | some s1 => some (pos, pos + ((x :: t).length - s1.length))
    | none => re.searchFrom (some x) t (pos + 1)

/-- The compiled pattern. -/
def RE.compile (re : RE) : Regexp := ⟨fun s => re.searchFrom none s 0⟩

/-- A literal string. -/
def RE.lit : List Nat → RE
  | [] => .eps
  | c :: t => .seq (.byte c) (RE.lit t)

/-- The class `.` without the flag `s`: any byte but the line feed. -/
def RE.dot : RE := .cls fun c => decide (c ≠ 10)

/-- The class `\s`: tab, line feed, form feed, carriage return, space. -/
def RE.space : RE := .cls fun c => decide (c = 9 ∨ c = 10 ∨ c = 12 ∨ c = 13 ∨ c = 32)

/-- The default of the flag `grep` in `main`:
`(?m)^.*escapes to heap:(?:\n\s+.*)*`. -/
def defaultGrep : Regexp :=
  RE.compile
    (.seq .bol (.seq (.star RE.dot) (.seq (RE.lit (str "escapes to heap:"))
      (.star (.seq (.byte 10) (.seq (.seq RE.space (.star RE.space)) (.star RE.dot)))))))

/-! ## The shape of an annotated document -/

/-- An inserted block showing the text `s`. -/
def wrapBlock (s : List Nat) : List Nat := str "/**********\n" ++ s ++ str "\n***********/\n"

/-- What one fragment contributes after its line: nothing when the filter has
no match in it, else one block holding the leftmost match. -/
def blockOf (re : Regexp) (fragment : List Nat) : List Nat :=
  match re.FindStringIndex fragment with
  | none => []
  | some (a, b) => wrapBlock ((fragment.drop a).take (b - a))

/-- The run of blocks inserted after line `n`: those of the fragments stored
under `(file, n)`, in the order the map is visited. -/
def insertedAfter (re : Regexp) (file : List Nat) (m : Index) (ord : RangeOrder) (n : Int) :
    List Nat :=
  match mapGet m ⟨file, n⟩ with
  | none => []
  | some mm => (ord.visit n mm).flatMap fun e => blockOf re e.2

/-- The lines numbered from `n` on, each followed by a line feed and by the run
of blocks that `runs` gives for its number. -/
def annotated (runs : Int → List Nat) : List (List Nat) → Int → List Nat
  | [], _ => []
  | l :: rest, n => l ++ 10 :: (runs n ++ annotated runs rest (n + 1))

/-- The lines, each followed by a line feed. -/
def joinLines (ls : List (List Nat)) : List Nat := ls.flatMap fun l => l ++ [10]

/-- The raw diagnostics of the end-to-end example. -/
def exampleDiagnostics : List Nat :=
  str "a.go:10:5: escapes to heap:\na.go:10:5:   from x (assign) at a.go:10:5\na.go:20:1: unrelated note\n"

/-- The index `processLines` builds from `exampleDiagnostics`. -/
def exampleIndex : Index :=
  [(⟨str "a.go", 10⟩, [(5, str "escapes to heap:\n  from x (assign) at a.go:10:5")]),
    (⟨str "a.go", 20⟩, [(1, str "unrelated note")])]

/-- An index with two fragments on line 1 of `f.go`; both match the default
filter, and the first holds two matches. -/
def twoFragments : Index :=
  [(⟨str "f.go", 1⟩,
    [(3, str "a escapes to heap:\nb escapes to heap:"), (7, str "c escapes to heap:"),
      (9, str "note")])]

/-- A source text of 25 short lines, `l1` to `l25`. -/
def exampleSource : List Nat :=
  str "l1\nl2\nl3\nl4\nl5\nl6\nl7\nl8\nl9\nl10\nl11\nl12\nl13\nl14\nl15\nl16\nl17\nl18\nl19\nl20\nl21\nl22\nl23\nl24\nl25\n"

/-! ## The virtual file -/

/-- A Go result `(value, error)` with a non-nil error or a value. -/
inductive GoResult (α : Type) where
  | ok (v : α) : GoResult α
  | err (e : List Nat) : GoResult α
deriving DecidableEq, Repr

/-- What a Go call does: it panics or it returns. -/
inductive Outcome (α : Type) where
  | panics : Outcome α
  | returns (v : α) : Outcome α
deriving DecidableEq, Repr

/-- The metadata `fs.FileInfo`. -/
structure FileInfo where
  name : List Nat
  size : Int
  mode : Nat
  modTime : Int
  isDir : Bool
deriving DecidableEq, Repr

/-- The `http.File` that the base store hands out (for `http.Dir`, an
`*os.File`): what reading it to the end gives, what `Stat` gives while it is
open, and whether it has been closed. -/
structure BaseFile where
  content : GoResult (List Nat)
  statResult : GoResult FileInfo
  closed : Bool
deriving DecidableEq, Repr

/-- The method `Stat` of the base file: an error once the file is closed. -/
def BaseFile.Stat (f : BaseFile) : GoResult FileInfo :=
  if f.closed then .err (str "file already closed") else f.statResult

/-- The method `Close` of the base file, with the error it returns. -/
def BaseFile.Close (f : BaseFile) : BaseFile × Option (List Nat) :=
  if f.closed then (f, some (str "file already closed"))
  else (⟨f.content, f.statResult, true⟩, none)

/-- The type `annFile` of `main.go`; `buf` holds the unread bytes of the
`bytes.Buffer`. -/
structure annFile where
  buf : List Nat
  all : List Nat
  orig : BaseFile
deriving DecidableEq, Repr

/-- The value `&annFile{buf: &out, all: out.Bytes(), orig: f}` that `Open`
returns, `out` being the formatted bytes. -/
def newAnnFile (out : List Nat) (f : BaseFile) : annFile := ⟨out, out, f⟩

/-- The method `Close` of `annFile`: `return a.orig.Close()`. -/
def annFile.Close (a : annFile) : annFile × Option (List Nat) :=
  (⟨a.buf, a.all, a.orig.Close.1⟩, a.orig.Close.2)

/-- The method `Read` of `annFile`, which is `bytes.Buffer.Read`, for a
destination of `n` bytes: the new state, the bytes copied, and the Go result
`(count, error)`. -/
def annFile.Read (a : annFile) (n : Nat) : annFile × List Nat × Nat × Option (List Nat) :=
  if a.buf = [] then
    if n = 0 then (a, [], 0, none) else (a, [], 0, some (str "EOF"))
  else (⟨a.buf.drop n, a.all, a.orig⟩, a.buf.take n, (a.buf.take n).length, none)

/-- The constant `io.SeekStart`. -/
def SeekStart : Int := 0

/-- The method `Seek` of `annFile`: the new state and the Go result
`(position, error)`; the slice expression `a.all[offset:]` panics when the
offset is negative or beyond the length. -/
def annFile.Seek (a : annFile) (offset : Int) (whence : Int) :
    Outcome (annFile × Int × Option (List Nat)) :=
  if whence ≠ SeekStart then .returns (a, 0, some (str "only SeekStart is implemented"))
  else if offset < 0 ∨ (a.all.length : Int) < offset then .panics
  else .returns (⟨a.all.drop offset.toNat, a.all, a.orig⟩, 0, none)

/-- The type `fileInfo` seen through its methods: `Size` is overridden, the
other methods are those of the embedded `fs.FileInfo`. -/
def fileInfo (s : FileInfo) (size : Int) : FileInfo := ⟨s.name, size, s.mode, s.modTime, s.isDir⟩

/-- The method `Stat` of `annFile`. -/
def annFile.Stat (a : annFile) : GoResult FileInfo :=
  match a.orig.Stat with
  | .err e => .err e
  | .ok s => .ok (fileInfo s a.all.length)

/-- A call of `Read` (with the size of the destination) or of `Seek`. -/
inductive FileOp where
  | read (n : Nat) : FileOp
  | seek (offset whence : Int) : FileOp
deriving DecidableEq, Repr

/-- The state after one call; `none` when the call panics. -/
def annFile.step (a : annFile) : FileOp → Option annFile
  | .read n => some (a.Read n).1
  | .seek offset whence =>
    match a.Seek offset whence with
    | .panics => none
    | .returns r => some r.1

/-- The state after a sequence of calls; `none` when one of them panics. -/
def annFile.after (a : annFile) : List FileOp → Option annFile
  | [] => some a
  | op :: rest =>
    match a.step op with
    | none => none
    | some a1 => a1.after rest

/-- Reading to end-of-data with a destination of `chunk` bytes: `Read` is
called until it returns `io.EOF`, at most `fuel` times; the bytes read and the
final state, `none` when `fuel` calls did not reach the end. -/
def readToEnd (chunk : Nat) : Nat → annFile → Option (List Nat × annFile)
  | 0, _ => none
  | fuel + 1, a =>
    match (a.Read chunk).2.2.2 with
    | some _ => some ([], (a.Read chunk).1)
    | none =>
      match readToEnd chunk fuel (a.Read chunk).1 with
      | none => none
      | some r => some ((a.Read chunk).2.1 ++ r.1, r.2)

/-! ## Open -/

/-- The interface value `http.File` that `Open` returns: the base store's own
file object or a virtual file. -/
inductive HttpFile where
  | base (f : BaseFile) : HttpFile
  | ann (a : annFile) : HttpFile
deriving DecidableEq, Repr

/-- The type `annotateFS` of `main.go`: the filter and the base store, the
latter given by what `fs.base.Open` returns for a name. -/
structure annotateFS where
  grep : Regexp
  base : List Nat → GoResult BaseFile

/-- The collaborators of `Open` outside the repository: the compiler run
`go build -gcflags "-m -m" arg` with its combined output, the lexer, the
formatter, and the iteration order of the maps in `zipFile`. -/
structure Collaborators where
  goBuild : List Nat → GoResult (List Nat)
  tokenise : List Nat → GoResult (List (List Nat))
  format : List (List Nat) → GoResult (List Nat)
  order : RangeOrder

/-- The steps of the annotation pipeline that a call of `Open` performs. -/
inductive Step where
  | readAll : Step
  | build (arg : List Nat) : Step
  | parse : Step
  | merge : Step
  | tokenise : Step
  | format : Step
deriving DecidableEq, Repr

/-- What a call of `Open` returns, the Go pair `(http.File, error)`, and the
pipeline steps it performed, in order. -/
structure Opened where
  file : Option HttpFile
  err : Option (List Nat)
  steps : List Step
deriving DecidableEq, Repr

/-- The call `strings.HasSuffix(name, ".go")`. -/
def hasGoSuffix (name : List Nat) : Bool := (str ".go").isSuffixOf name

/-- The call `filepath.Join(".", name)`. -/
def joinDot (name : List Nat) : List Nat :=
  if name = [] then Clean [46] else Clean (46 :: 47 :: name)

/-- The function `filepath.Dir`: the path up to its last separator,
cleaned. -/
def Dir (path : List Nat) : List Nat :=
  Clean ((path.reverse.dropWhile fun c => decide (c ≠ 47)).reverse)

/-- The method `Open` of `annotateFS`.  The error that `zipFile` returns is
assigned to `err` and overwritten by the next assignment without being
looked at. -/
def annotateFS.Open (fs : annotateFS) (env : Collaborators) (name : List Nat) : Opened :=
  match fs.base name with
  | .err e => ⟨none, some e, []⟩
  | .ok f =>
    match f.Stat with
    | .err e => ⟨none, some e, []⟩
    | .ok stat =>
      if stat.isDir || !hasGoSuffix name then ⟨some (.base f), none, []⟩
      else
        let name1 := joinDot name
        match f.content with
        | .err e => ⟨none, some e, [.readAll]⟩
        | .ok b =>
          let pkgDir := Dir name1
          let arg := str "./" ++ pkgDir
          match env.goBuild arg with
          | .err e => ⟨none, some e, [.readAll, .build arg]⟩
          | .ok annotations =>
            match processLines annotations with
            | (_, some e) => ⟨none, some e, [.readAll, .build arg, .parse]⟩
            | (m, none) =>
              let modContents := (zipFile fs.grep b name1 (m.getD []) env.order).1
              match env.tokenise modContents with
              | .err e => ⟨none, some e, [.readAll, .build arg, .parse, .merge, .tokenise]⟩
              | .ok it =>
                match env.format it with
                | .err e =>
                  ⟨none, some e, [.readAll, .build arg, .parse, .merge, .tokenise, .format]⟩
                | .ok out =>
                  ⟨some (.ann (newAnnFile out f)), none,
                    [.readAll, .build arg, .parse, .merge, .tokenise, .format]⟩

/-! ## An example store -/

/-- A lexer that returns the whole text as one token. -/
def exampleTokenise (s : List Nat) : GoResult (List (List Nat)) := .ok [s]

/-- A formatter that wraps the tokens in `<pre>` and `</pre>`. -/
def exampleFormat (ts : List (List Nat)) : GoResult (List Nat) :=
  .ok (str "<pre>" ++ ts.flatten ++ str "</pre>")

/-- Collaborators for the examples: the compiler prints the diagnostics of the
end-to-end example and exits with status 0. -/
def exampleEnv : Collaborators :=
  ⟨fun _ => .ok exampleDiagnostics, exampleTokenise, exampleFormat, storedOrder⟩

/-- A file named `big.go` whose only line has 65536 bytes (it is not valid Go
source; `longCommentSource` below is). -/
def longLineFile : BaseFile :=
  ⟨.ok (List.replicate 65536 120 ++ [10]), .ok ⟨str "big.go", 65537, 420, 0, false⟩, false⟩

/-- A small Go file. -/
def smallGoFile : BaseFile :=
  ⟨.ok (str "package a\n"), .ok ⟨str "a.go", 10, 420, 0, false⟩, false⟩

/-- A text file whose `Stat` fails. -/
def noStatFile : BaseFile :=
  ⟨.ok (str "notes\n"), .err (str "stat x.txt: input/output error"), false⟩

/-- A text file. -/
def textFile : BaseFile :=
  ⟨.ok (str "notes\n"), .ok ⟨str "y.txt", 6, 420, 0, false⟩, false⟩

/-- A base store holding the four files above. -/
def exampleFS : annotateFS :=
  ⟨defaultGrep, fun name =>
    if name = str "/big.go" then .ok longLineFile
    else if name = str "/a.go" then .ok smallGoFile
    else if name = str "/x.txt" then .ok noStatFile
    else if name = str "/y.txt" then .ok textFile
    else .err (str "file does not exist")⟩

/-- The entries of an index that `zipFile` can reach for the file key `file`
and a text of `N` lines: those keyed `(file, n)` with `1 ≤ n ≤ N`. -/
def reachableEntries (file : List Nat) (N : Nat) (m : Index) : Index :=
  m.filter fun e => decide (e.1.file = file ∧ 1 ≤ e.1.line ∧ e.1.line ≤ (N : Int))

/-- An index with entries `zipFile` cannot reach in a text of two lines of
`a.go`: another file, line 0, a line past the end. -/
def strayIndex : Index :=
  [(⟨str "b.go", 1⟩, [(1, str "x escapes to heap:")]),
    (⟨str "a.go", 0⟩, [(1, str "y escapes to heap:")]),
    (⟨str "a.go", 2⟩, [(4, str "z escapes to heap:")]),
    (⟨str "a.go", 3⟩, [(1, str "w escapes to heap:")])]

/-- An index in which line 1 of `f.go` has three fragments and line 2 has two,
one fragment of each line matching the default filter. -/
def oneMatchIndex : Index :=
  [(⟨str "f.go", 1⟩,
      [(3, str "a escapes to heap:\n  from x"), (7, str "moved to heap"), (9, str "note")]),
    (⟨str "f.go", 2⟩, [(1, str "inlining call"), (4, str "b escapes to heap:")])]

/-- A Go source file that compiles: the package clause and a comment line of
65538 bytes (`//` and 65536 times `x`). -/
def longCommentSource : List Nat :=
  str "package a" ++ 10 :: (str "//" ++ (List.replicate 65536 120 ++ [10]))

/-- The file `/long.go` holding `longCommentSource`. -/
def longCommentFile : BaseFile :=
  ⟨.ok longCommentSource, .ok ⟨str "long.go", 65549, 420, 0, false⟩, false⟩

/-- A base store holding `/long.go`. -/
def longCommentFS : annotateFS :=
  ⟨defaultGrep, fun name =>
    if name = str "/long.go" then .ok longCommentFile else .err (str "file does not exist")⟩

/-- Collaborators for a package without diagnostics: the compiler exits with
status 0 and prints nothing. -/
def quietEnv : Collaborators :=
  ⟨fun _ => .ok [], exampleTokenise, exampleFormat, storedOrder⟩

/-! # Proofs -/

theorem str_lf : str "\n" = [10] := by decide

theorem scanFrom_replicate (x : Nat) (hx : x ≠ 10) (n : Nat) (rest cur : List Nat) :
    scanFrom (List.replicate n x ++ rest) cur = scanFrom rest (cur ++ List.replicate n x) := by
  induction n generalizing cur with
  | zero => simp
  | succ k ih =>
    rw [List.replicate_succ, List.cons_append, scanFrom, if_neg hx, ih]
    simp [List.replicate_succ]

theorem scanFrom_too_long (rest cur : List Nat) (h : MaxScanTokenSize ≤ cur.length) :
    scanFrom (10 :: rest) cur = ([], true) := by
  simp [scanFrom, h]

theorem scan_eq_of_fits_aux (data cur : List Nat)
    (h : ∀ l ∈ rawFrom data cur, l.length < MaxScanTokenSize) :
    scanFrom data cur = ((rawFrom data cur).map dropCR, false) := by
  induction data generalizing cur with
  | nil =>
    unfold rawFrom at h
    unfold scanFrom rawFrom
    by_cases hc : cur = []
    · subst hc; simp [MaxScanTokenSize]
    · have := h cur (by simp [hc])
      simp [hc, Nat.not_le.mpr this]
  | cons c rest ih =>
    unfold rawFrom at h
    unfold scanFrom rawFrom
    by_cases hc : c = 10
    · simp only [hc, if_true] at h ⊢
      have h1 := h cur (by simp)
      have h2 := ih [] (fun l hl => h l (by simp [hl]))
      simp [Nat.not_le.mpr h1, h2]
    · simp only [hc, if_false] at h ⊢
      exact ih _ h

theorem scanLines_of_fits (data : List Nat) (h : fitsScanner data) :
    scanLines data = (textLines data, false) :=
  scan_eq_of_fits_aux data [] h

theorem mapGet_mapSet {K V : Type} [DecidableEq K] (m : List (K × V)) (k k' : K) (v : V) :
    mapGet (mapSet m k v) k' = if k = k' then some v else mapGet m k' := by
  induction m with
  | nil => simp [mapSet, mapGet]
  | cons e m ih =>
    obtain ⟨a, b⟩ := e
    unfold mapSet
    by_cases h : a = k
    · subst h
      by_cases h2 : a = k' <;> simp [mapGet, h2]
    · by_cases h2 : k = k'
      · subst h2; simp [mapGet, h, ih]
      · simp [mapGet, h, ih, h2]

theorem lookup_addFragment (r : Index) (k key : line) (q p : Int) (a : List Nat) :
    lookup (addFragment r k q a) key p =
      if k = key ∧ q = p then
        some (match lookup r k q with
          | some e => e ++ 10 :: a
          | none => a)
      else lookup r key p := by
  unfold addFragment lookup
  cases hk : mapGet r k with
  | none =>
    simp only [Option.isNone_none, if_true, mapGet_mapSet, Option.getD_some, mapGet]
    by_cases h1 : k = key
    · subst h1
      by_cases h2 : q = p <;> simp [mapSet, mapGet, h2, hk]
    · simp [h1, mapGet_mapSet]
  | some mm =>
    simp only [Option.isNone_some, hk, Option.getD_some, Bool.false_eq_true, if_false,
      Option.bind_some]
    cases hq : mapGet mm q with
    | none =>
      simp only [mapGet_mapSet]
      by_cases h1 : k = key
      · subst h1
        by_cases h2 : q = p
        · subst h2; simp [mapGet_mapSet, hq]
        · simp [h2, hk, mapGet_mapSet]
      · simp [h1]
    | some e =>
      simp only [mapGet_mapSet]
      by_cases h1 : k = key
      · subst h1
        by_cases h2 : q = p
        · subst h2; simp [str_lf, mapGet_mapSet, hq]
        · simp [h2, hk, mapGet_mapSet]
      · simp [h1]


theorem joinLF_cons_cons (e msg : List Nat) (rest : List (List Nat)) :
    joinLF ((e ++ 10 :: msg) :: rest) = joinLF (e :: msg :: rest) := by
  cases rest with
  | nil => simp [joinLF]
  | cons x xs => simp [joinLF]

theorem extendFragment_some (e : List Nat) (msgs : List (List Nat)) :
    extendFragment (some e) msgs = some (joinLF (e :: msgs)) := by
  induction msgs generalizing e with
  | nil => simp [extendFragment, joinLF]
  | cons msg rest ih => rw [extendFragment, ih, joinLF_cons_cons]

theorem extendFragment_none (msgs : List (List Nat)) :
    extendFragment none msgs = if msgs = [] then none else some (joinLF msgs) := by
  cases msgs with
  | nil => simp [extendFragment]
  | cons msg rest => simp [extendFragment, extendFragment_some]

theorem processLoop_lookup (ts : List (List Nat)) (r m : Index)
    (h : processLoop ts r = (some m, none)) (key : line) (p : Int) :
    lookup m key p = extendFragment (lookup r key p) (messagesFor ts key p) := by
  induction ts generalizing r with
  | nil =>
    simp only [processLoop, Prod.mk.injEq, Option.some.injEq, and_true] at h
    subst h; simp [messagesFor, extendFragment]
  | cons text rest ih =>
    unfold processLoop at h
    cases hf : lineRegexFind text with
    | none =>
      rw [hf] at h
      rw [ih r h]
      simp [messagesFor, diagOf, hf]
    | some g =>
      obtain ⟨fileStr, m2, m3, annotation⟩ := g
      rw [hf] at h
      cases h2 : Atoi m2 with
      | none => simp [h2] at h
      | some lineNum =>
        cases h3 : Atoi m3 with
        | none => simp [h2, h3] at h
        | some posNum =>
          simp only [h2, h3] at h
          rw [ih _ h, lookup_addFragment]
          by_cases hk : (⟨Clean fileStr, lineNum⟩ : line) = key ∧ posNum = p
          · obtain ⟨hk1, hk2⟩ := hk
            subst hk1 hk2
            cases hl : lookup r ⟨Clean fileStr, lineNum⟩ posNum <;>
              simp [messagesFor, diagOf, hf, h2, h3, extendFragment]
          · simp only [hk, if_false]
            simp [messagesFor, diagOf, hf, h2, h3, hk]

theorem processLines_index (data : List Nat) (m : Index) (hfit : fitsScanner data)
    (h : processLines data = (some m, none)) (key : line) (p : Int) :
    lookup m key p =
      if messagesFor (textLines data) key p = [] then none
      else some (joinLF (messagesFor (textLines data) key p)) := by
  unfold processLines at h
  rw [scanLines_of_fits data hfit] at h
  rw [processLoop_lookup _ _ _ h, ← extendFragment_none]
  rfl

theorem takeWhile_append_stop (p : Nat → Bool) (a b : List Nat) (x : Nat)
    (ha : ∀ y ∈ a, p y = true) (hx : p x = false) :
    (a ++ x :: b).takeWhile p = a ∧ (a ++ x :: b).dropWhile p = x :: b := by
  induction a with
  | nil => simp [List.takeWhile, List.dropWhile, hx]
  | cons y a ih =>
    have hy : p y = true := ha y (by simp)
    have := ih (fun z hz => ha z (by simp [hz]))
    simp [List.takeWhile, List.dropWhile, hy, this]

theorem lineRegexFind_eq_some (text file ln col msg : List Nat) :
    lineRegexFind text = some (file, ln, col, msg) ↔
      (text = file ++ 58 :: (ln ++ 58 :: (col ++ 58 :: 32 :: msg)) ∧ file ≠ [] ∧ 58 ∉ file
        ∧ isNumeral ln ∧ isNumeral col ∧ 10 ∉ msg) := by
  constructor
  · intro h
    unfold lineRegexFind at h
    have e1 := List.takeWhile_append_dropWhile notColon text
    have m1 : ∀ y ∈ text.takeWhile notColon, notColon y = true :=
      fun y hy => List.mem_takeWhile_imp hy
    by_cases hf : text.takeWhile notColon = []
    · simp [hf] at h
    · simp only [hf, if_false] at h
      split at h
      · rename_i r1 hd1
        have e2 := List.takeWhile_append_dropWhile isDigit r1
        have m2 : ∀ y ∈ r1.takeWhile isDigit, isDigit y = true :=
          fun y hy => List.mem_takeWhile_imp hy
        by_cases hl : r1.takeWhile isDigit = []
        · simp [hl] at h
        · simp only [hl, if_false] at h
          split at h
          · rename_i r2 hd2
            have e3 := List.takeWhile_append_dropWhile isDigit r2
            have m3 : ∀ y ∈ r2.takeWhile isDigit, isDigit y = true :=
              fun y hy => List.mem_takeWhile_imp hy
            by_cases hc : r2.takeWhile isDigit = []
            · simp [hc] at h
            · simp only [hc, if_false] at h
              split at h
              · rename_i msg0 hd3
                by_cases hm : 10 ∈ msg0
                · simp [hm] at h
                · simp only [hm, if_false, Option.some.injEq, Prod.mk.injEq] at h
                  obtain ⟨h1, h2, h3, h4⟩ := h
                  subst h4
                  rw [hd3, h3] at e3
                  rw [hd2, h2, ← e3] at e2
                  rw [hd1, h1, ← e2] at e1
                  refine ⟨e1.symm, h1 ▸ hf, ?_, ⟨h2 ▸ hl, h2 ▸ m2⟩, ⟨h3 ▸ hc, h3 ▸ m3⟩, hm⟩
                  intro hmem
                  have := m1 58 (h1 ▸ hmem)
                  simp [notColon] at this
              · simp at h
          · simp at h
      · simp at h
  · rintro ⟨rfl, hf, hnc, ⟨hl, hld⟩, ⟨hc, hcd⟩, hm⟩
    have a1 := takeWhile_append_stop notColon file (ln ++ 58 :: (col ++ 58 :: 32 :: msg)) 58
      (fun y hy => by
        have : y ≠ 58 := fun e => hnc (e ▸ hy)
        simp [notColon, this]) (by simp [notColon])
    have a2 := takeWhile_append_stop isDigit ln (col ++ 58 :: 32 :: msg) 58 hld (by decide)
    have a3 := takeWhile_append_stop isDigit col (32 :: msg) 58 hcd (by decide)
    unfold lineRegexFind
    simp only [a1.1, a1.2, hf, if_false, a2.1, a2.2, hl, a3.1, a3.2, hc, hm]

theorem rawFrom_replicate (x : Nat) (hx : x ≠ 10) (n : Nat) (rest cur : List Nat) :
    rawFrom (List.replicate n x ++ rest) cur = rawFrom rest (cur ++ List.replicate n x) := by
  induction n generalizing cur with
  | zero => simp
  | succ k ih =>
    rw [List.replicate_succ, List.cons_append, rawFrom, if_neg hx, ih]
    simp [List.replicate_succ]

/-- C1 (defect at a long line): a first line of 65536 bytes ends the scan of
`processLines` silently, so the well-formed diagnostic on the next line, which
is a line of the text and carries the triple `(a.go, 1, 1)`, is missing from the
index although `processLines` returns a nil error. -/
theorem processLines_stops_at_long_line :
    processLines (List.replicate 65536 120 ++ str "\na.go:1:1: m\n") = (some [], none)
      ∧ str "a.go:1:1: m" ∈ textLines (List.replicate 65536 120 ++ str "\na.go:1:1: m\n")
      ∧ diagOf (str "a.go:1:1: m") = some (⟨str "a.go", 1⟩, 1, str "m")
      ∧ processLines (str "a.go:1:1: m\n")
          = (some [(⟨str "a.go", 1⟩, [(1, str "m")])], none) := by
  have h : str "\na.go:1:1: m\n" = 10 :: str "a.go:1:1: m\n" := by decide
  refine ⟨?_, ?_, by decide, by decide⟩
  · unfold processLines scanLines
    rw [scanFrom_replicate 120 (by decide), h, scanFrom_too_long]
    · rfl
    · rw [List.nil_append, List.length_replicate]
      exact Nat.le_refl _
  · unfold textLines rawLines
    rw [rawFrom_replicate 120 (by decide), h, rawFrom, if_pos rfl]
    have h2 : rawFrom (str "a.go:1:1: m\n") [] = [str "a.go:1:1: m"] := by decide
    rw [h2]
    simp only [List.map_cons, List.map_nil, List.mem_cons]
    right; left
    decide

theorem split_at_first (x : Nat) (a a' b b' : List Nat) (ha : x ∉ a) (ha' : x ∉ a')
    (h : a ++ x :: b = a' ++ x :: b') : a = a' ∧ b = b' := by
  induction a generalizing a' with
  | nil =>
    cases a' with
    | nil => simpa using h
    | cons y t =>
      simp only [List.nil_append, List.cons_append, List.cons.injEq] at h
      exact absurd (by simp [h.1]) ha'
  | cons z t ih =>
    cases a' with
    | nil =>
      simp only [List.nil_append, List.cons_append, List.cons.injEq] at h
      exact absurd (by simp [h.1]) ha
    | cons y t' =>
      simp only [List.cons_append, List.cons.injEq] at h
      have := ih t' (fun hm => ha (by simp [hm])) (fun hm => ha' (by simp [hm])) h.2
      exact ⟨by rw [h.1, this.1], this.2⟩

theorem numeral_no_colon (s : List Nat) (h : isNumeral s) : 58 ∉ s := by
  intro hm
  have := h.2 58 hm
  simp [isDigit] at this

theorem lineRegexFind_fields (f L C msg f' ln col msg' : List Nat) (hf : 58 ∉ f) (hL : 58 ∉ L)
    (hC : 58 ∉ C)
    (h : lineRegexFind (f ++ 58 :: (L ++ 58 :: (C ++ 58 :: 32 :: msg))) = some (f', ln, col, msg')) :
    f' = f ∧ ln = L ∧ col = C ∧ msg' = msg ∧ isNumeral L ∧ isNumeral C := by
  obtain ⟨e, _, hnc, hl, hc, _⟩ := (lineRegexFind_eq_some _ _ _ _ _).mp h
  obtain ⟨e1, r1⟩ := split_at_first 58 _ _ _ _ hf hnc e
  obtain ⟨e2, r2⟩ := split_at_first 58 _ _ _ _ hL (numeral_no_colon _ hl) r1
  obtain ⟨e3, r3⟩ := split_at_first 58 _ _ _ _ hC (numeral_no_colon _ hc) r2
  simp only [List.cons.injEq, true_and] at r3
  subst e1 e2 e3 r3
  exact ⟨rfl, rfl, rfl, rfl, hl, hc⟩

theorem processLoop_skip (text : List Nat) (h : lineRegexFind text = none)
    (pre post : List (List Nat)) (r : Index) :
    processLoop (pre ++ text :: post) r = processLoop (pre ++ post) r := by
  induction pre generalizing r with
  | nil => simp [processLoop, h]
  | cons t pre ih =>
    simp only [List.cons_append, processLoop]
    cases h1 : lineRegexFind t with
    | none => exact ih r
    | some g =>
      obtain ⟨a, b, c, d⟩ := g
      simp only []
      cases h2 : Atoi b with
      | none => rfl
      | some n =>
        cases h3 : Atoi c with
        | none => rfl
        | some q => exact ih _

/-- C2 (counterexample): the lines `a.go:x:5: msg` and `a.go:10:y: msg` have a
non-numeric field, yet `processLines` returns an (empty) index and a nil
error. -/
theorem processLines_nonNumeric_field_succeeds :
    processLines (str "a.go:x:5: msg\n") = (some [], none)
      ∧ processLines (str "a.go:10:y: msg\n") = (some [], none) := by
  constructor <;> decide

/-- C2 (amended): a line `file:line:column: message` whose line or column field
is not a non-empty run of digits does not match the line pattern; the loop of
`processLines` passes over it without an error and without touching the index,
wherever it stands among the scanned lines. -/
theorem nonNumeric_field_ignored (f L C msg : List Nat) (hf : 58 ∉ f) (hL : 58 ∉ L)
    (hC : 58 ∉ C) (hbad : ¬ isNumeral L ∨ ¬ isNumeral C) :
    lineRegexFind (f ++ 58 :: (L ++ 58 :: (C ++ 58 :: 32 :: msg))) = none
      ∧ ∀ (pre post : List (List Nat)) (r : Index),
          processLoop (pre ++ (f ++ 58 :: (L ++ 58 :: (C ++ 58 :: 32 :: msg))) :: post) r
            = processLoop (pre ++ post) r := by
  have key : lineRegexFind (f ++ 58 :: (L ++ 58 :: (C ++ 58 :: 32 :: msg))) = none := by
    cases hr : lineRegexFind (f ++ 58 :: (L ++ 58 :: (C ++ 58 :: 32 :: msg))) with
    | none => rfl
    | some g =>
      obtain ⟨f', ln, col, msg'⟩ := g
      obtain ⟨_, _, _, _, h1, h2⟩ := lineRegexFind_fields f L C msg f' ln col msg' hf hL hC hr
      rcases hbad with hb | hb
      · exact absurd h1 hb
      · exact absurd h2 hb
  exact ⟨key, fun pre post r => processLoop_skip _ key pre post r⟩

theorem nonNumeric_field_ignored_witness :
    lineRegexFind (str "a.go" ++ 58 :: (str "x" ++ 58 :: (str "5" ++ 58 :: 32 :: str "msg"))) = none
      ∧ ∀ (pre post : List (List Nat)) (r : Index),
          processLoop
              (pre ++ (str "a.go" ++ 58 :: (str "x" ++ 58 :: (str "5" ++ 58 :: 32 :: str "msg")))
                :: post) r
            = processLoop (pre ++ post) r :=
  nonNumeric_field_ignored (str "a.go") (str "x") (str "5") (str "msg") (by decide) (by decide)
    (by decide) (Or.inl (by decide))

theorem parseDigits_of_digits (s : List Nat) (acc : Nat) (h : ∀ c ∈ s, isDigit c = true) :
    parseDigits s acc = some (decimalFrom s acc) := by
  induction s generalizing acc with
  | nil => rfl
  | cons c rest ih =>
    have hc := h c (by simp)
    simp only [isDigit, Bool.and_eq_true, decide_eq_true_eq] at hc
    simp only [parseDigits, hc, and_self, if_true, decimalFrom]
    exact ih _ (fun d hd => h d (by simp [hd]))

theorem Atoi_numeral (s : List Nat) (h : isNumeral s) :
    Atoi s = if decimalValue s < 2 ^ 63 then some (decimalValue s : Int) else none := by
  obtain ⟨hne, hd⟩ := h
  cases s with
  | nil => exact absurd rfl hne
  | cons c t =>
    have hc := hd c (by simp)
    simp only [isDigit, Bool.and_eq_true, decide_eq_true_eq] at hc
    have h45 : c ≠ 45 := by omega
    have h43 : c ≠ 43 := by omega
    unfold Atoi
    simp only [h45, h43, or_self, if_false, reduceCtorEq, parseDigits_of_digits _ 0 hd]
    rfl

theorem Atoi_numeral_none (s : List Nat) (h : isNumeral s) :
    Atoi s = none ↔ 2 ^ 63 ≤ decimalValue s := by
  rw [Atoi_numeral s h]
  by_cases hv : decimalValue s < 2 ^ 63
  · simp [hv]
  · simp [hv, Nat.le_of_not_lt hv]

theorem processLoop_error_iff (ts : List (List Nat)) (r : Index) :
    (processLoop ts r).2 ≠ none ↔
      ∃ text ∈ ts, outOfRangeLine text := by
  unfold outOfRangeLine
  induction ts generalizing r with
  | nil => simp [processLoop]
  | cons t rest ih =>
    simp only [processLoop, List.mem_cons, exists_eq_or_imp]
    cases h1 : lineRegexFind t with
    | none => simp [ih]
    | some g =>
      obtain ⟨a, b, c, d⟩ := g
      obtain ⟨_, _, _, hb, hc, _⟩ := (lineRegexFind_eq_some _ _ _ _ _).mp h1
      simp only [Option.some.injEq, Prod.mk.injEq]
      cases h2 : Atoi b with
      | none =>
        have := (Atoi_numeral_none b hb).mp h2
        simp only [ne_eq, reduceCtorEq, not_false_eq_true, true_iff]
        exact Or.inl ⟨a, b, c, d, ⟨rfl, rfl, rfl, rfl⟩, Or.inl this⟩
      | some n =>
        have hn : ¬ 2 ^ 63 ≤ decimalValue b := by
          rw [← Atoi_numeral_none b hb, h2]; simp
        cases h3 : Atoi c with
        | none =>
          have := (Atoi_numeral_none c hc).mp h3
          simp only [ne_eq, reduceCtorEq, not_false_eq_true, true_iff]
          exact Or.inl ⟨a, b, c, d, ⟨rfl, rfl, rfl, rfl⟩, Or.inr this⟩
        | some q =>
          have hq : ¬ 2 ^ 63 ≤ decimalValue c := by
            rw [← Atoi_numeral_none c hc, h3]; simp
          simp only [ih]
          constructor
          · intro h; exact Or.inr h
          · rintro (⟨f, ln, col, msg, ⟨e1, e2, e3, e4⟩, h⟩ | h)
            · subst e2 e3
              rcases h with h | h
              · exact absurd h hn
              · exact absurd h hq
            · exact h

theorem processLoop_shape (ts : List (List Nat)) (r : Index) :
    ((processLoop ts r).2 ≠ none → (processLoop ts r).1 = none)
      ∧ ((processLoop ts r).2 = none → (processLoop ts r).1 ≠ none) := by
  induction ts generalizing r with
  | nil => simp [processLoop]
  | cons t rest ih =>
    simp only [processLoop]
    cases h1 : lineRegexFind t with
    | none => exact ih r
    | some g =>
      obtain ⟨a, b, c, d⟩ := g
      simp only []
      cases h2 : Atoi b with
      | none => simp
      | some n =>
        cases h3 : Atoi c with
        | none => simp
        | some q => exact ih _

set_option maxRecDepth 100000 in
theorem testProcessLinesData_ok :
    fitsScanner testProcessLinesData ∧ (processLines testProcessLinesData).2 = none
      ∧ ((textLines testProcessLinesData).filter fun t => (lineRegexFind t).isSome).length = 7 := by
  refine ⟨?_, ?_, ?_⟩ <;> decide

/-- C3: on a text whose lines all fit the scanner's buffer, `processLines`
returns an error exactly when some line matching the line pattern carries a line
or column numeral above 2^63 - 1; with an error the returned index is nil, and
without one an index is returned.  The input of `TestProcessLines` fits the
buffer, has seven matching lines and is parsed without error. -/
theorem processLines_fails_iff_out_of_range (data : List Nat) (hfit : fitsScanner data) :
    ((processLines data).2 ≠ none ↔ ∃ text ∈ textLines data, outOfRangeLine text)
      ∧ ((processLines data).2 ≠ none → (processLines data).1 = none)
      ∧ ((processLines data).2 = none → (processLines data).1 ≠ none)
      ∧ (fitsScanner testProcessLinesData
          ∧ ((textLines testProcessLinesData).filter fun t => (lineRegexFind t).isSome).length = 7
          ∧ (processLines testProcessLinesData).2 = none) := by
  have hs : (scanLines data).1 = textLines data := by rw [scanLines_of_fits data hfit]
  refine ⟨?_, ?_, ?_, testProcessLinesData_ok.1, testProcessLinesData_ok.2.2,
    testProcessLinesData_ok.2.1⟩
  · unfold processLines
    rw [hs]
    exact processLoop_error_iff _ _
  · exact (processLoop_shape _ _).1
  · exact (processLoop_shape _ _).2

theorem processLines_fails_iff_out_of_range_witness :
    fitsScanner testProcessLinesData
      ∧ (((processLines testProcessLinesData).2 ≠ none
            ↔ ∃ text ∈ textLines testProcessLinesData, outOfRangeLine text)
        ∧ ((processLines testProcessLinesData).2 ≠ none
            → (processLines testProcessLinesData).1 = none)
        ∧ ((processLines testProcessLinesData).2 = none
            → (processLines testProcessLinesData).1 ≠ none)
        ∧ (fitsScanner testProcessLinesData
          ∧ ((textLines testProcessLinesData).filter fun t => (lineRegexFind t).isSome).length = 7
          ∧ (processLines testProcessLinesData).2 = none)) :=
  ⟨testProcessLinesData_ok.1,
    processLines_fails_iff_out_of_range testProcessLinesData testProcessLinesData_ok.1⟩

theorem rawFrom_append_noLF (l rest cur : List Nat) (h : 10 ∉ l) :
    rawFrom (l ++ rest) cur = rawFrom rest (cur ++ l) := by
  induction l generalizing cur with
  | nil => simp
  | cons c t ih =>
    have hc : c ≠ 10 := fun e => h (by simp [e])
    rw [List.cons_append, rawFrom, if_neg hc, ih _ (fun hm => h (by simp [hm]))]
    simp

theorem lineRegexFind_nil : lineRegexFind [] = none := by decide

theorem dropCR_nil : dropCR [] = [] := by decide

theorem rawFrom_deleteNoiseFrom (data cur : List Nat) (hcur : 10 ∉ cur) :
    rawFrom (deleteNoiseFrom data cur) [] = (rawFrom data cur).filter isDiagnostic := by
  induction data generalizing cur with
  | nil =>
    unfold deleteNoiseFrom
    by_cases hp : isDiagnostic cur = true
    · have hne : cur ≠ [] := by
        rintro rfl
        simp [isDiagnostic, dropCR_nil, lineRegexFind_nil] at hp
      have := rawFrom_append_noLF cur [] [] hcur
      simp only [List.append_nil, List.nil_append] at this
      simp [hp, this, rawFrom, hne]
    · simp only [Bool.not_eq_true] at hp
      by_cases hne : cur = []
      · simp [hp, rawFrom, hne]
      · simp [hp, rawFrom, hne]
  | cons c rest ih =>
    unfold deleteNoiseFrom
    by_cases hc : c = 10
    · subst hc
      simp only [if_true]
      have ih0 := ih [] (by simp)
      by_cases hp : isDiagnostic cur = true
      · simp only [hp, if_true, List.append_assoc, List.singleton_append]
        rw [rawFrom_append_noLF cur _ [] hcur]
        simp [rawFrom, ih0, hp]
      · simp only [Bool.not_eq_true] at hp
        simp [hp, rawFrom, ih0]
    · simp only [hc, if_false]
      rw [ih (cur ++ [c]) (by simp [hcur, Ne.symm hc])]
      simp [rawFrom, hc]

theorem processLoop_filter (ts : List (List Nat)) (r : Index) :
    processLoop (ts.filter fun t => (lineRegexFind t).isSome) r = processLoop ts r := by
  induction ts generalizing r with
  | nil => rfl
  | cons t rest ih =>
    cases h1 : lineRegexFind t with
    | none => simp [List.filter, h1, processLoop, ih]
    | some g =>
      obtain ⟨a, b, c, d⟩ := g
      simp only [List.filter, h1, Option.isSome_some, processLoop]
      cases h2 : Atoi b with
      | none => rfl
      | some n =>
        cases h3 : Atoi c with
        | none => rfl
        | some q => exact ih _

theorem processLoop_all_noise (ts : List (List Nat)) (r : Index)
    (h : ∀ t ∈ ts, lineRegexFind t = none) : processLoop ts r = (some r, none) := by
  induction ts with
  | nil => rfl
  | cons t rest ih =>
    simp only [processLoop, h t (by simp)]
    exact ih (fun u hu => h u (by simp [hu]))

theorem textLines_deleteNoise (data : List Nat) :
    textLines (deleteNoise data)
      = (textLines data).filter fun t => (lineRegexFind t).isSome := by
  unfold textLines rawLines deleteNoise
  rw [rawFrom_deleteNoiseFrom data [] (by simp), List.filter_map]
  rfl

theorem fitsScanner_deleteNoise (data : List Nat) (h : fitsScanner data) :
    fitsScanner (deleteNoise data) := by
  intro l hl
  unfold rawLines deleteNoise at hl
  rw [rawFrom_deleteNoiseFrom data [] (by simp)] at hl
  exact h l (List.mem_filter.mp hl).1


theorem scanLines_long_first_line (rest : List Nat) :
    scanLines (List.replicate 65536 120 ++ 10 :: rest) = ([], true) := by
  unfold scanLines
  rw [scanFrom_replicate 120 (by decide), scanFrom_too_long]
  rw [List.nil_append, List.length_replicate]
  exact Nat.le_refl _

theorem mem_dropCR (l : List Nat) (x : Nat) (h : x ∈ dropCR l) : x ∈ l := by
  unfold dropCR at h
  split at h
  · exact List.mem_of_mem_dropLast h
  · exact h

theorem lineRegexFind_none_of_no_colon (t : List Nat) (h : 58 ∉ t) : lineRegexFind t = none := by
  cases hr : lineRegexFind t with
  | none => rfl
  | some g =>
    obtain ⟨f, ln, col, msg⟩ := g
    obtain ⟨e, _⟩ := (lineRegexFind_eq_some _ _ _ _ _).mp hr
    exact absurd (by rw [e]; simp) h

theorem isDiagnostic_replicate (n : Nat) : isDiagnostic (List.replicate n 120) = false := by
  unfold isDiagnostic
  rw [lineRegexFind_none_of_no_colon]
  · rfl
  · intro hm
    have := List.eq_of_mem_replicate (mem_dropCR _ _ hm)
    omega

theorem deleteNoiseFrom_replicate (x : Nat) (hx : x ≠ 10) (n : Nat) (rest cur : List Nat) :
    deleteNoiseFrom (List.replicate n x ++ rest) cur
      = deleteNoiseFrom rest (cur ++ List.replicate n x) := by
  induction n generalizing cur with
  | zero => simp
  | succ k ih =>
    rw [List.replicate_succ, List.cons_append, deleteNoiseFrom, if_neg hx, ih]
    simp [List.replicate_succ]

theorem str_long_rest : str "\na.go:1:1: m\n" = 10 :: str "a.go:1:1: m\n" := by decide

/-- C4 (counterexample): the text is a noise line of 65536 bytes followed by one
diagnostic line.  With the noise line deleted `processLines` returns the entry
of the diagnostic; on the text itself it returns the empty index. -/
theorem processLines_long_noise_differs :
    deleteNoise (List.replicate 65536 120 ++ str "\na.go:1:1: m\n") = str "a.go:1:1: m\n"
      ∧ processLines (deleteNoise (List.replicate 65536 120 ++ str "\na.go:1:1: m\n"))
          = (some [(⟨str "a.go", 1⟩, [(1, str "m")])], none)
      ∧ processLines (List.replicate 65536 120 ++ str "\na.go:1:1: m\n") = (some [], none) := by
  have hd : deleteNoise (List.replicate 65536 120 ++ str "\na.go:1:1: m\n")
      = str "a.go:1:1: m\n" := by
    unfold deleteNoise
    rw [deleteNoiseFrom_replicate 120 (by decide), str_long_rest, deleteNoiseFrom, if_pos rfl,
      List.nil_append, isDiagnostic_replicate]
    decide
  refine ⟨hd, ?_, ?_⟩
  · rw [hd]; decide
  · unfold processLines
    rw [str_long_rest, scanLines_long_first_line]
    rfl

/-- C4 (amended): on a text whose lines all fit the scanner's buffer, the lines
that do not match the line pattern are ignored: `processLines` returns the same
result as on the text with those lines deleted, and when no line matches it
returns the empty index and a nil error. -/
theorem processLines_ignores_noise (data : List Nat) (hfit : fitsScanner data) :
    processLines (deleteNoise data) = processLines data
      ∧ ((∀ t ∈ textLines data, lineRegexFind t = none) → processLines data = (some [], none)) := by
  constructor
  · unfold processLines
    rw [scanLines_of_fits data hfit,
      scanLines_of_fits _ (fitsScanner_deleteNoise data hfit), textLines_deleteNoise]
    exact processLoop_filter _ _
  · intro h
    unfold processLines
    rw [scanLines_of_fits data hfit]
    exact processLoop_all_noise _ _ h

theorem processLines_ignores_noise_witness :
    fitsScanner (str "# pkg\n\na.go:1:1: m\nnoise")
      ∧ (processLines (deleteNoise (str "# pkg\n\na.go:1:1: m\nnoise"))
            = processLines (str "# pkg\n\na.go:1:1: m\nnoise")
        ∧ ((∀ t ∈ textLines (str "# pkg\n\na.go:1:1: m\nnoise"), lineRegexFind t = none)
            → processLines (str "# pkg\n\na.go:1:1: m\nnoise") = (some [], none))) :=
  ⟨by decide, processLines_ignores_noise (str "# pkg\n\na.go:1:1: m\nnoise") (by decide)⟩

theorem splitSlash_ne_nil (p : List Nat) : splitSlash p ≠ [] := by
  cases p with
  | nil => simp [splitSlash]
  | cons c t =>
    unfold splitSlash
    by_cases hc : c = 47
    · simp [hc]
    · simp only [hc, if_false]
      split <;> simp

theorem joinSlash_cons_cons (e s : List Nat) (ss : List (List Nat)) :
    joinSlash (e :: s :: ss) = e ++ 47 :: joinSlash (s :: ss) := rfl

theorem joinSlash_splitSlash (p : List Nat) : joinSlash (splitSlash p) = p := by
  induction p with
  | nil => rfl
  | cons c t ih =>
    unfold splitSlash
    by_cases hc : c = 47
    · simp only [hc, if_true]
      cases hs : splitSlash t with
      | nil => exact absurd hs (splitSlash_ne_nil t)
      | cons s ss => rw [joinSlash_cons_cons, ← hs, ih]; rfl
    · simp only [hc, if_false]
      cases hs : splitSlash t with
      | nil => exact absurd hs (splitSlash_ne_nil t)
      | cons s ss =>
        rw [hs] at ih
        simp only []
        cases ss with
        | nil =>
          simp only [joinSlash] at ih ⊢
          rw [ih]
        | cons s2 ss2 =>
          rw [joinSlash_cons_cons] at ih ⊢
          rw [List.cons_append, ih]

theorem cleanLoop_real (rooted : Bool) (es : List (List Nat)) (dots : Nat)
    (out : List (List Nat)) (h : ∀ e ∈ es, e ≠ [] ∧ e ≠ [46] ∧ e ≠ [46, 46]) :
    cleanLoop rooted es dots out = (dots, out ++ es) := by
  induction es generalizing out with
  | nil => simp [cleanLoop]
  | cons e rest ih =>
    obtain ⟨h1, h2, h3⟩ := h e (by simp)
    simp only [cleanLoop, h1, h2, h3, if_false]
    rw [ih _ (fun x hx => h x (by simp [hx]))]
    simp

theorem cleanRelative_ne_nil (P : List Nat) (h : isCleanRelative P) : P ≠ [] := by
  rintro rfl
  exact (h [] (by simp [splitSlash])).1 rfl

theorem cleanRelative_head (P : List Nat) (h : isCleanRelative P) : P.head? ≠ some 47 := by
  cases P with
  | nil => simp
  | cons c t =>
    intro hc
    simp only [List.head?_cons, Option.some.injEq] at hc
    subst hc
    exact (h [] (by simp [splitSlash])).1 rfl

theorem Clean_cleanRelative (P : List Nat) (h : isCleanRelative P) : Clean P = P := by
  unfold Clean
  simp only [cleanRelative_ne_nil P h, if_false, cleanRelative_head P h, decide_False,
    cleanLoop_real _ _ _ _ h, List.replicate_zero, List.nil_append, Bool.false_eq_true,
    splitSlash_ne_nil, joinSlash_splitSlash]

theorem Clean_dot_slash (P : List Nat) (h : isCleanRelative P) : Clean (46 :: 47 :: P) = P := by
  have hs : splitSlash (46 :: 47 :: P) = [46] :: splitSlash P := by
    simp [splitSlash]
  unfold Clean
  rw [hs]
  simp only [reduceCtorEq, if_false, List.head?_cons, Option.some.injEq, Nat.reduceEqDiff,
    decide_False, cleanLoop, List.cons_ne_self, cleanLoop_real _ _ _ _ h, List.replicate_zero,
    List.nil_append, Bool.false_eq_true, splitSlash_ne_nil, joinSlash_splitSlash, if_true]


theorem dropCR_of_last (l : List Nat) (h : l.getLast? ≠ some 13) : dropCR l = l := by
  unfold dropCR
  split
  · rename_i heq; exact absurd heq h
  · rfl

theorem diagLine_last (f ln col msg : List Nat) (h : msg.getLast? ≠ some 13) :
    (diagLine f ln col msg).getLast? ≠ some 13 := by
  unfold diagLine
  rw [List.getLast?_append_cons, ← List.cons_append, List.getLast?_append_cons,
    ← List.cons_append, List.getLast?_append_cons, List.getLast?_cons_cons]
  cases msg with
  | nil => simp
  | cons a t => rw [List.getLast?_cons_cons]; exact h

theorem numeral_no_LF (s : List Nat) (h : isNumeral s) : 10 ∉ s := by
  intro hm
  have := h.2 10 hm
  simp [isDigit] at this

theorem diagLine_no_LF (f ln col msg : List Nat) (hf : 10 ∉ f) (hl : isNumeral ln)
    (hc : isNumeral col) (hm : 10 ∉ msg) : 10 ∉ diagLine f ln col msg := by
  unfold diagLine
  simp [hf, numeral_no_LF ln hl, numeral_no_LF col hc, hm]

theorem rawLines_two (l1 l2 : List Nat) (h1 : 10 ∉ l1) (h2 : 10 ∉ l2) :
    rawLines (l1 ++ 10 :: (l2 ++ [10])) = [l1, l2] := by
  unfold rawLines
  rw [rawFrom_append_noLF l1 _ [] h1, rawFrom, if_pos rfl, rawFrom_append_noLF l2 _ [] h2]
  simp [rawFrom]

theorem str_dot_slash (P : List Nat) : str "./" ++ P = 46 :: 47 :: P := rfl

/-- C5 (counterexample): `c:d` is a clean relative path, but neither
`./c:d:1:2: m1` nor `c:d:1:2: m2` matches the line pattern (its file group
stops at the first colon), so nothing is stored. -/
theorem processLines_colon_in_path :
    isCleanRelative (str "c:d")
      ∧ processLines (str "./c:d:1:2: m1\nc:d:1:2: m2\n") = (some [], none) := by
  constructor <;> decide

/-- C5 (amended): for a clean relative path `P` without colon and line feed,
numerals `ln`, `col` inside the `int` range and messages without line feed
that do not end in a carriage return, both lines being shorter than the
scanner's buffer: parsing `./P:ln:col: m1` and then `P:ln:col: m2` yields the
single key `(P, ln)` with the single fragment `m1`, line feed, `m2` at column
`col`. -/
theorem processLines_dot_slash_same_key (P ln col m1 m2 : List Nat)
    (hP : isCleanRelative P) (hPc : 58 ∉ P) (hPn : 10 ∉ P)
    (hln : isNumeral ln) (hcol : isNumeral col)
    (hlr : decimalValue ln < 2 ^ 63) (hcr : decimalValue col < 2 ^ 63)
    (h1 : 10 ∉ m1) (h1r : m1.getLast? ≠ some 13)
    (h2 : 10 ∉ m2) (h2r : m2.getLast? ≠ some 13)
    (hlen1 : (diagLine (str "./" ++ P) ln col m1).length < MaxScanTokenSize)
    (hlen2 : (diagLine P ln col m2).length < MaxScanTokenSize) :
    processLines (diagLine (str "./" ++ P) ln col m1 ++ 10 :: (diagLine P ln col m2 ++ [10]))
      = (some [(⟨P, (decimalValue ln : Int)⟩, [((decimalValue col : Int), m1 ++ 10 :: m2)])],
          none) := by
  have hdn : 10 ∉ str "./" ++ P := by rw [str_dot_slash]; simp [hPn]
  have hdc : 58 ∉ str "./" ++ P := by rw [str_dot_slash]; simp [hPc]
  have hr := rawLines_two _ _ (diagLine_no_LF _ ln col m1 hdn hln hcol h1)
    (diagLine_no_LF P ln col m2 hPn hln hcol h2)
  have hfit : fitsScanner
      (diagLine (str "./" ++ P) ln col m1 ++ 10 :: (diagLine P ln col m2 ++ [10])) := by
    intro l hl
    rw [hr] at hl
    simp only [List.mem_cons, List.mem_singleton, List.not_mem_nil, or_false] at hl
    rcases hl with rfl | rfl
    · exact hlen1
    · exact hlen2
  have f1 : lineRegexFind (diagLine (str "./" ++ P) ln col m1)
      = some (str "./" ++ P, ln, col, m1) :=
    (lineRegexFind_eq_some _ _ _ _ _).mpr
      ⟨rfl, by rw [str_dot_slash]; simp, hdc, hln, hcol, h1⟩
  have f2 : lineRegexFind (diagLine P ln col m2) = some (P, ln, col, m2) :=
    (lineRegexFind_eq_some _ _ _ _ _).mpr
      ⟨rfl, cleanRelative_ne_nil P hP, hPc, hln, hcol, h2⟩
  have a1 : Atoi ln = some (decimalValue ln : Int) := by rw [Atoi_numeral ln hln, if_pos hlr]
  have a2 : Atoi col = some (decimalValue col : Int) := by rw [Atoi_numeral col hcol, if_pos hcr]
  unfold processLines
  rw [scanLines_of_fits _ hfit]
  unfold textLines
  rw [hr]
  simp only [List.map_cons, List.map_nil, dropCR_of_last _ (diagLine_last _ ln col m1 h1r),
    dropCR_of_last _ (diagLine_last P ln col m2 h2r), processLoop, f1, f2, a1, a2]
  rw [str_dot_slash, Clean_dot_slash P hP, Clean_cleanRelative P hP]
  simp [addFragment, mapGet, mapSet, str_lf]

theorem processLines_dot_slash_same_key_witness :
    processLines (diagLine (str "./" ++ str "foo/bar.x") (str "10") (str "5") (str "m1")
        ++ 10 :: (diagLine (str "foo/bar.x") (str "10") (str "5") (str "m2") ++ [10]))
      = (some [(⟨str "foo/bar.x", (decimalValue (str "10") : Int)⟩,
          [((decimalValue (str "5") : Int), str "m1" ++ 10 :: str "m2")])], none) :=
  processLines_dot_slash_same_key (str "foo/bar.x") (str "10") (str "5") (str "m1") (str "m2")
    (by decide) (by decide) (by decide) (by decide) (by decide) (by decide) (by decide)
    (by decide) (by decide) (by decide) (by decide) (by decide) (by decide)


theorem rangeLoop_eq (re : Regexp) (es : PosMap) (r : List Nat) :
    rangeLoop re es r = r ++ es.flatMap fun e => blockOf re e.2 := by
  induction es generalizing r with
  | nil => simp [rangeLoop]
  | cons e rest ih =>
    obtain ⟨p, a⟩ := e
    unfold rangeLoop
    cases h : re.FindStringIndex a with
    | none =>
      simp [Regexp.MatchString, h, ih, blockOf]
    | some ab =>
      obtain ⟨x, y⟩ := ab
      simp [Regexp.MatchString, Regexp.FindString, h, ih, blockOf, wrapBlock]

theorem zipLoop_eq (re : Regexp) (file : List Nat) (m : Index) (ord : RangeOrder)
    (ls : List (List Nat)) (n : Int) (r : List Nat) :
    zipLoop re file m ord ls n r = r ++ annotated (insertedAfter re file m ord) ls n := by
  induction ls generalizing n r with
  | nil => simp [zipLoop, annotated]
  | cons l rest ih =>
    unfold zipLoop
    simp only [ih, annotated, insertedAfter, str_lf]
    cases h : mapGet m ⟨file, n⟩ with
    | none => simp
    | some mm => simp [rangeLoop_eq]

theorem zipFile_of_fits (re : Regexp) (b file : List Nat) (m : Index) (ord : RangeOrder)
    (h : fitsScanner b) :
    zipFile re b file m ord = (annotated (insertedAfter re file m ord) (textLines b) 1, none) := by
  unfold zipFile
  rw [scanLines_of_fits b h, zipLoop_eq]
  simp

theorem annotated_no_runs (runs : Int → List Nat) (ls : List (List Nat)) (n : Int)
    (h : ∀ k : Nat, k < ls.length → runs (n + k) = []) :
    annotated runs ls n = joinLines ls := by
  induction ls generalizing n with
  | nil => rfl
  | cons l rest ih =>
    have h0 := h 0 (by simp)
    simp only [Nat.cast_zero, add_zero] at h0
    have := ih (n + 1) (fun k hk => by
      have := h (k + 1) (by simp [hk])
      rw [← this]; push_cast; ring_nf)
    simp [annotated, h0, this, joinLines]

theorem annotated_append (runs : Int → List Nat) (xs ys : List (List Nat)) (n : Int) :
    annotated runs (xs ++ ys) n = annotated runs xs n ++ annotated runs ys (n + xs.length) := by
  induction xs generalizing n with
  | nil => simp [annotated]
  | cons l rest ih =>
    rw [List.cons_append, annotated, annotated, ih (n + 1)]
    have : n + 1 + (rest.length : Int) = n + ((l :: rest).length : Int) := by
      simp only [List.length_cons, Nat.cast_add, Nat.cast_one]; ring
    rw [this]
    simp

theorem joinLines_cons (l : List Nat) (ls : List (List Nat)) :
    joinLines (l :: ls) = l ++ 10 :: joinLines ls := by
  simp [joinLines]

theorem joinLines_rawFrom (data cur : List Nat) (h : data.getLast? = some 10) :
    joinLines (rawFrom data cur) = cur ++ data := by
  induction data generalizing cur with
  | nil => simp at h
  | cons c rest ih =>
    cases rest with
    | nil =>
      simp only [List.getLast?_singleton, Option.some.injEq] at h
      subst h
      simp [rawFrom, joinLines]
    | cons d rest2 =>
      rw [List.getLast?_cons_cons] at h
      unfold rawFrom
      by_cases hc : c = 10
      · subst hc
        simp only [if_true]
        rw [joinLines_cons, ih [] h]
        simp
      · simp only [hc, if_false]
        rw [ih _ h]
        simp

theorem mem_rawFrom_split (data cur l : List Nat) (h : data.getLast? = some 10)
    (hl : l ∈ rawFrom data cur) : ∃ pre post, cur ++ data = pre ++ l ++ 10 :: post := by
  induction data generalizing cur with
  | nil => simp at h
  | cons c rest ih =>
    unfold rawFrom at hl
    by_cases hc : c = 10
    · subst hc
      simp only [if_true, List.mem_cons] at hl
      rcases hl with rfl | hl
      · exact ⟨[], rest, by simp⟩
      · cases rest with
        | nil => simp [rawFrom] at hl
        | cons d rest2 =>
          rw [List.getLast?_cons_cons] at h
          obtain ⟨pre, post, e⟩ := ih [] h hl
          refine ⟨cur ++ 10 :: pre, post, ?_⟩
          simp only [List.nil_append] at e
          rw [e]; simp
    · simp only [hc, if_false] at hl
      cases rest with
      | nil =>
        simp only [List.getLast?_singleton, Option.some.injEq] at h
        exact absurd h hc
      | cons d rest2 =>
        rw [List.getLast?_cons_cons] at h
        obtain ⟨pre, post, e⟩ := ih _ h hl
        exact ⟨pre, post, by rw [← e]; simp⟩

theorem rawLines_no_CR (b : List Nat) (hend : b = [] ∨ b.getLast? = some 10)
    (hcr : ∀ pre post, b ≠ pre ++ 13 :: 10 :: post) :
    ∀ l ∈ rawLines b, l.getLast? ≠ some 13 := by
  intro l hl hlast
  rcases hend with rfl | hend
  · simp [rawLines, rawFrom] at hl
  · obtain ⟨pre, post, e⟩ := mem_rawFrom_split b [] l hend hl
    have hne : l ≠ [] := by rintro rfl; simp at hlast
    have hl2 := List.dropLast_append_getLast? 13 (by simpa using hlast)
    apply hcr (pre ++ l.dropLast) post
    simp only [List.nil_append] at e
    rw [e, ← hl2]
    simp

theorem map_dropCR_id (ls : List (List Nat)) (h : ∀ l ∈ ls, l.getLast? ≠ some 13) :
    ls.map dropCR = ls := by
  induction ls with
  | nil => rfl
  | cons l rest ih =>
    rw [List.map_cons, dropCR_of_last l (h l (by simp)), ih (fun x hx => h x (by simp [hx]))]

theorem insertedAfter_empty (re : Regexp) (file : List Nat) (ord : RangeOrder) (n : Int) :
    insertedAfter re file [] ord n = [] := rfl

/-- C6 (counterexample): the one-byte text `a` has no final line feed; merged
with the empty index it comes back as `a` followed by a line feed. -/
theorem zipFile_adds_final_LF :
    zipFile defaultGrep (str "a") (str "f.go") [] storedOrder = (str "a\n", none)
      ∧ str "a\n" ≠ str "a" := by
  constructor <;> decide

/-- C6 (amended): a source text that is empty or ends in a line feed, holds no
carriage return directly before a line feed, and whose lines all fit the
scanner's buffer is returned by `zipFile` with the empty index byte for byte
and without error, for every file key, filter and iteration order. -/
theorem zipFile_empty_index (re : Regexp) (b file : List Nat) (ord : RangeOrder)
    (hend : b = [] ∨ b.getLast? = some 10)
    (hcr : ∀ pre post, b ≠ pre ++ 13 :: 10 :: post)
    (hfit : fitsScanner b) :
    zipFile re b file [] ord = (b, none) := by
  rw [zipFile_of_fits re b file [] ord hfit,
    annotated_no_runs _ _ _ (fun k _ => insertedAfter_empty re file ord _)]
  unfold textLines
  rw [map_dropCR_id _ (rawLines_no_CR b hend hcr)]
  rcases hend with rfl | hend
  · rfl
  · have := joinLines_rawFrom b [] hend
    simpa [rawLines] using this


theorem zipFile_empty_index_witness :
    zipFile defaultGrep (str "x := 1\n\ny\n") (str "f.go") [] storedOrder
      = (str "x := 1\n\ny\n", none) :=
  zipFile_empty_index defaultGrep (str "x := 1\n\ny\n") (str "f.go") storedOrder
    (Or.inr (by decide))
    (fun pre post h => absurd (show 13 ∈ str "x := 1\n\ny\n" by rw [h]; simp) (by decide))
    (by decide)

/-- C7: when every line of the source text fits the scanner's buffer,
`zipFile` returns, without error, the lines as `bufio.ScanLines` cuts them,
in order, each followed by a line feed and by a run of inserted blocks.  The
run after the line at position `k + 1` is the one looked up under the number
`k + 1`, it is a sequence of blocks, and it is empty when `(file, k + 1)` is
absent from the index; with all runs deleted the lines, each with its line
feed, remain. -/
theorem zipFile_interleaves (re : Regexp) (b file : List Nat) (m : Index) (ord : RangeOrder)
    (hfit : fitsScanner b) :
    zipFile re b file m ord = (annotated (insertedAfter re file m ord) (textLines b) 1, none)
      ∧ (∀ pre l post, textLines b = pre ++ l :: post →
          annotated (insertedAfter re file m ord) (textLines b) 1
            = annotated (insertedAfter re file m ord) pre 1
              ++ (l ++ 10 :: insertedAfter re file m ord (pre.length + 1))
              ++ annotated (insertedAfter re file m ord) post (pre.length + 2))
      ∧ (∀ n, ∃ shown : List (List Nat),
          insertedAfter re file m ord n = shown.flatMap wrapBlock)
      ∧ (∀ n, mapGet m ⟨file, n⟩ = none → insertedAfter re file m ord n = [])
      ∧ annotated (fun _ => []) (textLines b) 1 = joinLines (textLines b) := by
  refine ⟨zipFile_of_fits re b file m ord hfit, ?_, ?_, ?_, ?_⟩
  · intro pre l post h
    rw [h, annotated_append, annotated]
    have e1 : (1 : Int) + (pre.length : Int) = (pre.length : Int) + 1 := by ring
    have e2 : (pre.length : Int) + 1 + 1 = (pre.length : Int) + 2 := by ring
    rw [e1, e2]
    simp
  · intro n
    unfold insertedAfter
    cases mapGet m ⟨file, n⟩ with
    | none => exact ⟨[], rfl⟩
    | some mm =>
      simp only []
      induction ord.visit n mm with
      | nil => exact ⟨[], rfl⟩
      | cons e rest ih =>
        obtain ⟨shown, hs⟩ := ih
        cases hb : re.FindStringIndex e.2 with
        | none =>
          refine ⟨shown, ?_⟩
          rw [List.flatMap_cons, hs]
          simp [blockOf, hb]
        | some ab =>
          refine ⟨(e.2.drop ab.1).take (ab.2 - ab.1) :: shown, ?_⟩
          rw [List.flatMap_cons, hs, List.flatMap_cons]
          simp [blockOf, hb]
  · intro n h
    simp [insertedAfter, h]
  · exact annotated_no_runs _ _ _ (fun _ _ => rfl)

theorem zipFile_interleaves_witness :
    fitsScanner (str "a\nb\n")
      ∧ zipFile defaultGrep (str "a\nb\n") (str "f.go") twoFragments storedOrder
          = (annotated (insertedAfter defaultGrep (str "f.go") twoFragments storedOrder)
              (textLines (str "a\nb\n")) 1, none) :=
  ⟨by decide,
    (zipFile_interleaves defaultGrep (str "a\nb\n") (str "f.go") twoFragments storedOrder
      (by decide)).1⟩

/-- C8: after the scanned line at position `k + 1` (`k` lines before it) whose
key `(file, k + 1)` is in the index, `zipFile` writes to its string builder
one contribution per fragment of that key, each fragment once, in the order
the map is visited: nothing for a fragment in which the filter has no match,
and for a fragment with a match exactly one block that holds the text of the
leftmost match (`FindString`), the part of the fragment at the location of
that match.  When the scan ends without error, the builder's content is what
`zipFile` returns. -/
theorem zipFile_blocks_after_line (re : Regexp) (b file : List Nat) (m : Index)
    (ord : RangeOrder) (pre : List (List Nat)) (l : List Nat) (post : List (List Nat))
    (mm : PosMap) (hsplit : (scanLines b).1 = pre ++ l :: post)
    (hmm : mapGet m ⟨file, (pre.length : Int) + 1⟩ = some mm) :
    zipLoop re file m ord (scanLines b).1 1 []
        = zipLoop re file m ord pre 1 []
          ++ (l ++ 10 :: (ord.visit ((pre.length : Int) + 1) mm).flatMap fun e => blockOf re e.2)
          ++ zipLoop re file m ord post ((pre.length : Int) + 2) []
      ∧ (ord.visit ((pre.length : Int) + 1) mm).Perm mm
      ∧ (∀ fragment, re.MatchString fragment = false → blockOf re fragment = [])
      ∧ (∀ fragment, re.MatchString fragment = true →
          blockOf re fragment
            = str "/**********\n" ++ re.FindString fragment ++ str "\n***********/\n")
      ∧ (∀ fragment a c, re.FindStringIndex fragment = some (a, c) →
          re.FindString fragment = (fragment.drop a).take (c - a))
      ∧ ((scanLines b).2 = false →
          zipFile re b file m ord = (zipLoop re file m ord (scanLines b).1 1 [], none)) := by
  refine ⟨?_, ord.perm _ _, ?_, ?_, ?_, ?_⟩
  · rw [hsplit, zipLoop_eq, zipLoop_eq, zipLoop_eq, annotated_append, annotated]
    have e1 : (1 : Int) + (pre.length : Int) = (pre.length : Int) + 1 := by ring
    have e2 : (pre.length : Int) + 1 + 1 = (pre.length : Int) + 2 := by ring
    rw [e1, e2]
    simp [insertedAfter, hmm]
  · intro fragment h
    cases hb : re.FindStringIndex fragment with
    | none => simp [blockOf, hb]
    | some ab => simp [Regexp.MatchString, hb] at h
  · intro fragment h
    cases hb : re.FindStringIndex fragment with
    | none => simp [Regexp.MatchString, hb] at h
    | some ab => simp [blockOf, hb, Regexp.FindString, wrapBlock]
  · intro fragment a c h
    simp [Regexp.FindString, h]
  · intro h
    simp [zipFile, h]

theorem zipFile_blocks_after_line_witness :
    zipLoop defaultGrep (str "f.go") twoFragments storedOrder (scanLines (str "x\ny\n")).1 1 []
        = zipLoop defaultGrep (str "f.go") twoFragments storedOrder [] 1 []
          ++ (str "x" ++ 10 :: (storedOrder.visit (([] : List (List Nat)).length + 1)
                [(3, str "a escapes to heap:\nb escapes to heap:"),
                  (7, str "c escapes to heap:"), (9, str "note")]).flatMap
              fun e => blockOf defaultGrep e.2)
          ++ zipLoop defaultGrep (str "f.go") twoFragments storedOrder [str "y"]
              ((([] : List (List Nat)).length : Int) + 2) []
      ∧ zipFile defaultGrep (str "x\ny\n") (str "f.go") twoFragments storedOrder
          = (str "x\n/**********\na escapes to heap:\n***********/\n/**********\nc escapes to heap:\n***********/\ny\n", none) :=
  ⟨(zipFile_blocks_after_line defaultGrep (str "x\ny\n") (str "f.go") twoFragments storedOrder
      [] (str "x") [str "y"] _ (by decide) (by decide)).1, by decide⟩


theorem blockOf_of_no_match (re : Regexp) (fragment : List Nat)
    (h : re.MatchString fragment = false) : blockOf re fragment = [] := by
  cases hb : re.FindStringIndex fragment with
  | none => simp [blockOf, hb]
  | some ab => simp [Regexp.MatchString, hb] at h

theorem flatMap_blockOf_filter (re : Regexp) (es : PosMap) :
    (es.flatMap fun e => blockOf re e.2)
      = (es.filter fun e => re.MatchString e.2).flatMap fun e => blockOf re e.2 := by
  induction es with
  | nil => rfl
  | cons e rest ih =>
    by_cases h : re.MatchString e.2 = true
    · simp [List.filter, h, ih]
    · simp only [Bool.not_eq_true] at h
      simp [List.filter, h, ih, blockOf_of_no_match re e.2 h]

theorem perm_eq_of_length_le_one {α : Type} (l1 l2 : List α) (h : l1.Perm l2)
    (hl : l2.length ≤ 1) : l1 = l2 := by
  match l2, hl with
  | [], _ => exact List.Perm.eq_nil h
  | [a], _ => exact List.perm_singleton.mp h

theorem insertedAfter_order (re : Regexp) (file : List Nat) (m : Index)
    (ord1 ord2 : RangeOrder)
    (h : ∀ n mm, mapGet m ⟨file, n⟩ = some mm →
      (mm.filter fun e => re.MatchString e.2).length ≤ 1) :
    insertedAfter re file m ord1 = insertedAfter re file m ord2 := by
  funext n
  unfold insertedAfter
  cases hm : mapGet m ⟨file, n⟩ with
  | none => rfl
  | some mm =>
    simp only []
    rw [flatMap_blockOf_filter re (ord1.visit n mm), flatMap_blockOf_filter re (ord2.visit n mm),
      perm_eq_of_length_le_one _ _ ((ord1.perm n mm).filter _) (h n mm hm),
      perm_eq_of_length_le_one _ _ ((ord2.perm n mm).filter _) (h n mm hm)]

/-- C9 (counterexample): two fragments of line 1 match the filter; visiting the
column map in stored order and in reverse order gives two different texts. -/
theorem zipFile_order_dependent :
    zipFile defaultGrep (str "x\n") (str "f.go") twoFragments storedOrder
        = (str "x\n/**********\na escapes to heap:\n***********/\n/**********\nc escapes to heap:\n***********/\n", none)
      ∧ zipFile defaultGrep (str "x\n") (str "f.go") twoFragments reverseOrder
        = (str "x\n/**********\nc escapes to heap:\n***********/\n/**********\na escapes to heap:\n***********/\n", none)
      ∧ zipFile defaultGrep (str "x\n") (str "f.go") twoFragments storedOrder
        ≠ zipFile defaultGrep (str "x\n") (str "f.go") twoFragments reverseOrder := by
  refine ⟨?_, ?_, ?_⟩ <;> decide

/-- C9 (amended): the text `zipFile` returns is fixed by its inputs and the
order in which the column maps are visited; when no line has two or more
fragments matching the filter, it is the same for every visiting order. -/
theorem zipFile_order_independent (re : Regexp) (b file : List Nat) (m : Index)
    (ord1 ord2 : RangeOrder)
    (h : ∀ n mm, mapGet m ⟨file, n⟩ = some mm →
      (mm.filter fun e => re.MatchString e.2).length ≤ 1) :
    zipFile re b file m ord1 = zipFile re b file m ord2 := by
  unfold zipFile
  rw [zipLoop_eq, zipLoop_eq, insertedAfter_order re file m ord1 ord2 h]

set_option maxRecDepth 10000 in
theorem exampleIndex_one_match (n : Int) (mm : PosMap)
    (h : mapGet exampleIndex ⟨str "a.go", n⟩ = some mm) :
    (mm.filter fun e => defaultGrep.MatchString e.2).length ≤ 1 := by
  unfold exampleIndex at h
  simp only [mapGet] at h
  split at h
  · simp only [Option.some.injEq] at h
    subst h; decide
  · split at h
    · simp only [Option.some.injEq] at h
      subst h; decide
    · simp at h

theorem annotated_single_run (runs : Int → List Nat) (ls : List (List Nat)) (n : Int) (k : Nat)
    (hk : k < ls.length) (block : List Nat) (hrun : runs (n + k) = block)
    (hother : ∀ j : Nat, j < ls.length → j ≠ k → runs (n + j) = []) :
    annotated runs ls n
      = joinLines (ls.take (k + 1)) ++ block ++ joinLines (ls.drop (k + 1)) := by
  induction ls generalizing n k with
  | nil => simp at hk
  | cons l rest ih =>
    cases k with
    | zero =>
      simp only [Nat.cast_zero, add_zero] at hrun
      have hrest : annotated runs rest (n + 1) = joinLines rest :=
        annotated_no_runs runs rest (n + 1) (fun j hj => by
          have := hother (j + 1) (by simp [hj]) (by omega)
          rw [← this]; push_cast; ring_nf)
      simp [annotated, hrun, hrest, joinLines]
    | succ k =>
      have h0 := hother 0 (by simp) (by omega)
      simp only [Nat.cast_zero, add_zero] at h0
      have := ih (n + 1) k (by simpa using hk)
        (by rw [← hrun]; push_cast; ring_nf)
        (fun j hj hjk => by
          have := hother (j + 1) (by simp [hj]) (by omega)
          rw [← this]; push_cast; ring_nf)
      simp [annotated, h0, this, joinLines]

theorem visit_singleton (ord : RangeOrder) (n : Int) (e : Int × List Nat) :
    ord.visit n [e] = [e] :=
  List.perm_singleton.mp (ord.perm n [e])

theorem exampleDiagnostics_index : processLines exampleDiagnostics = (some exampleIndex, none) := by
  decide

set_option maxRecDepth 10000 in
theorem example_run_10 (ord : RangeOrder) :
    insertedAfter defaultGrep (str "a.go") exampleIndex ord 10
      = str "/**********\nescapes to heap:\n  from x (assign) at a.go:10:5\n***********/\n" := by
  have hg : mapGet exampleIndex ⟨str "a.go", 10⟩
      = some [(5, str "escapes to heap:\n  from x (assign) at a.go:10:5")] := by decide
  unfold insertedAfter
  rw [hg]
  simp only [visit_singleton, List.flatMap_cons, List.flatMap_nil, List.append_nil]
  decide

set_option maxRecDepth 10000 in
theorem example_run_other (ord : RangeOrder) (n : Int) (hn : n ≠ 10) :
    insertedAfter defaultGrep (str "a.go") exampleIndex ord n = [] := by
  unfold insertedAfter
  by_cases h20 : n = 20
  · subst h20
    have hg : mapGet exampleIndex ⟨str "a.go", 20⟩ = some [(1, str "unrelated note")] := by
      decide
    rw [hg]
    simp only [visit_singleton, List.flatMap_cons, List.flatMap_nil, List.append_nil]
    decide
  · have hg : mapGet exampleIndex ⟨str "a.go", n⟩ = none := by
      simp [exampleIndex, mapGet, Ne.symm hn, Ne.symm h20]
    rw [hg]


/-- C10 (counterexample): a source text of 25 lines whose first line has 65536
bytes; `zipFile` returns the empty string and an error instead of the 25 lines
with one block. -/
theorem zipFile_example_long_line :
    (rawLines (List.replicate 65536 120 ++ 10 :: List.replicate 24 10)).length = 25
      ∧ processLines exampleDiagnostics = (some exampleIndex, none)
      ∧ zipFile defaultGrep (List.replicate 65536 120 ++ 10 :: List.replicate 24 10)
          (str "a.go") exampleIndex storedOrder
        = ([], some (str "error reading file: bufio.Scanner: token too long")) := by
  refine ⟨?_, exampleDiagnostics_index, ?_⟩
  · unfold rawLines
    rw [rawFrom_replicate 120 (by decide), rawFrom, if_pos rfl, List.length_cons]
    have : (rawFrom (List.replicate 24 10) []).length = 24 := by decide
    rw [this]
  · unfold zipFile
    rw [scanLines_long_first_line]
    rfl

/-- C10 (amended): with `m` the index `processLines` builds from the three
example diagnostics and the default filter, `zipFile` returns for every source
text of 25 lines that all fit the scanner's buffer, under every iteration
order: the first ten lines, each followed by a line feed, then the one block
holding `escapes to heap:` and its continuation line, then lines 11 to 25, each
followed by a line feed; nothing is inserted after line 20 or any other
line. -/
theorem zipFile_example (b : List Nat) (m : Index) (ord : RangeOrder)
    (hm : processLines exampleDiagnostics = (some m, none))
    (hfit : fitsScanner b) (hlen : (textLines b).length = 25) :
    zipFile defaultGrep b (str "a.go") m ord
      = (joinLines ((textLines b).take 10)
          ++ str "/**********\nescapes to heap:\n  from x (assign) at a.go:10:5\n***********/\n"
          ++ joinLines ((textLines b).drop 10), none) := by
  have hidx : m = exampleIndex := by
    have := hm.symm.trans exampleDiagnostics_index
    simpa using this
  subst hidx
  rw [zipFile_of_fits _ _ _ _ _ hfit,
    annotated_single_run _ (textLines b) 1 9 (by omega) _ (example_run_10 ord)
      (fun j _ hj => example_run_other ord _ (by omega))]

theorem zipFile_example_witness :
    zipFile defaultGrep exampleSource (str "a.go") exampleIndex reverseOrder
      = (joinLines ((textLines exampleSource).take 10)
          ++ str "/**********\nescapes to heap:\n  from x (assign) at a.go:10:5\n***********/\n"
          ++ joinLines ((textLines exampleSource).drop 10), none) :=
  zipFile_example exampleSource exampleIndex reverseOrder exampleDiagnostics_index
    (by decide) (by decide)

theorem readToEnd_all (chunk : Nat) (hchunk : 0 < chunk) (fuel : Nat) (a : annFile)
    (hfuel : a.buf.length < fuel) :
    readToEnd chunk fuel a = some (a.buf, ⟨[], a.all, a.orig⟩) := by
  induction fuel generalizing a with
  | zero => omega
  | succ fuel ih =>
    unfold readToEnd
    by_cases hb : a.buf = []
    · have hn : chunk ≠ 0 := by omega
      obtain ⟨buf, all, orig⟩ := a
      simp only at hb
      subst hb
      simp [annFile.Read, hn]
    · have hlen : 0 < a.buf.length := List.length_pos.mpr hb
      have hr : a.Read chunk
          = (⟨a.buf.drop chunk, a.all, a.orig⟩, a.buf.take chunk, (a.buf.take chunk).length,
              none) := by
        simp [annFile.Read, hb]
      rw [hr]
      simp only []
      rw [ih ⟨a.buf.drop chunk, a.all, a.orig⟩ (by simp only [List.length_drop]; omega)]
      simp

theorem after_reads (a : annFile) (sizes : List Nat) :
    ∃ a1, a.after (sizes.map FileOp.read) = some a1 ∧ a1.all = a.all ∧ a1.orig = a.orig := by
  induction sizes generalizing a with
  | nil => exact ⟨a, rfl, rfl, rfl⟩
  | cons n rest ih =>
    obtain ⟨a1, h1, h2, h3⟩ := ih (a.Read n).1
    refine ⟨a1, ?_, ?_, ?_⟩
    · simp [annFile.after, annFile.step, h1]
    · rw [h2]; unfold annFile.Read; split <;> [split; skip] <;> rfl
    · rw [h3]; unfold annFile.Read; split <;> [split; skip] <;> rfl

theorem step_keeps (a a1 : annFile) (op : FileOp) (h : a.step op = some a1) :
    a1.all = a.all ∧ a1.orig = a.orig := by
  cases op with
  | read n =>
    simp only [annFile.step, Option.some.injEq] at h
    subst h
    unfold annFile.Read
    split <;> [split; skip] <;> exact ⟨rfl, rfl⟩
  | seek offset whence =>
    simp only [annFile.step] at h
    unfold annFile.Seek at h
    by_cases hw : whence ≠ SeekStart
    · rw [if_pos hw] at h
      simp only [Option.some.injEq] at h
      subst h; exact ⟨rfl, rfl⟩
    · rw [if_neg hw] at h
      by_cases hb : offset < 0 ∨ (a.all.length : Int) < offset
      · rw [if_pos hb] at h; simp at h
      · rw [if_neg hb] at h
        simp only [Option.some.injEq] at h
        subst h; exact ⟨rfl, rfl⟩

theorem after_keeps (a a1 : annFile) (ops : List FileOp) (h : a.after ops = some a1) :
    a1.all = a.all ∧ a1.orig = a.orig := by
  induction ops generalizing a with
  | nil =>
    simp only [annFile.after, Option.some.injEq] at h
    subst h; exact ⟨rfl, rfl⟩
  | cons op rest ih =>
    simp only [annFile.after] at h
    cases hs : a.step op with
    | none => simp [hs] at h
    | some a2 =>
      simp only [hs] at h
      obtain ⟨h1, h2⟩ := ih a2 h
      obtain ⟨h3, h4⟩ := step_keeps a a2 op hs
      exact ⟨h1.trans h3, h2.trans h4⟩


theorem Seek_start_in_range (a : annFile) (k : Int) (h0 : 0 ≤ k) (h1 : k ≤ a.all.length) :
    a.Seek k SeekStart = .returns (⟨a.all.drop k.toNat, a.all, a.orig⟩, 0, none) := by
  unfold annFile.Seek
  rw [if_neg (by simp), if_neg (by omega)]

theorem Seek_start_out_of_range (a : annFile) (k : Int)
    (h : k < 0 ∨ (a.all.length : Int) < k) : a.Seek k SeekStart = .panics := by
  unfold annFile.Seek
  rw [if_neg (by simp), if_pos h]

theorem Seek_other_whence (a : annFile) (offset whence : Int) (h : whence ≠ SeekStart) :
    a.Seek offset whence = .returns (a, 0, some (str "only SeekStart is implemented")) := by
  unfold annFile.Seek
  rw [if_pos h]

theorem Open_ann (fs : annotateFS) (env : Collaborators) (name : List Nat) (a : annFile)
    (h : (fs.Open env name).file = some (.ann a)) : ∃ out f, a = newAnnFile out f := by
  unfold annotateFS.Open at h
  cases h1 : fs.base name with
  | err e => simp [h1] at h
  | ok f =>
    cases h2 : f.Stat with
    | err e => simp [h1, h2] at h
    | ok stat =>
      by_cases h3 : (stat.isDir || !hasGoSuffix name) = true
      · simp [h1, h2, h3] at h
      · cases h4 : f.content with
        | err e => simp [h1, h2, h3, h4] at h
        | ok b =>
          cases h5 : env.goBuild (str "./" ++ Dir (joinDot name)) with
          | err e => simp [h1, h2, h3, h4, h5] at h
          | ok annotations =>
            cases h6 : processLines annotations with
            | mk m perr =>
              cases perr with
              | some e => simp [h1, h2, h3, h4, h5, h6] at h
              | none =>
                cases h7 : env.tokenise
                    (zipFile fs.grep b (joinDot name) (m.getD []) env.order).1 with
                | err e => simp [h1, h2, h3, h4, h5, h6, h7] at h
                | ok it =>
                  cases h8 : env.format it with
                  | err e => simp [h1, h2, h3, h4, h5, h6, h7, h8] at h
                  | ok out =>
                    simp [h1, h2, h3, h4, h5, h6, h7, h8] at h
                    exact ⟨out, f, h.symm⟩

/-- C12: for a virtual file that `Open` returned and any later sequence of
`Read` and `Seek` calls (none of which panicked), `Stat`, whenever the original
file's `Stat` succeeds, reports as size the length of `all`, which is still the
content `Open` materialized, whatever part of it is unread; name, mode,
modification time and the directory flag are those of the original file's
`Stat`. -/
theorem Stat_reports_materialized_size (fs : annotateFS) (env : Collaborators)
    (name : List Nat) (a a1 : annFile) (ops : List FileOp) (s : FileInfo)
    (hopen : (fs.Open env name).file = some (.ann a))
    (hops : a.after ops = some a1) (hstat : a1.orig.Stat = .ok s) :
    a1.Stat = .ok (fileInfo s a1.all.length)
      ∧ (fileInfo s a1.all.length).size = a1.all.length
      ∧ a1.all = a.all ∧ a.buf = a.all ∧ a1.orig = a.orig
      ∧ (fileInfo s a1.all.length).name = s.name
      ∧ (fileInfo s a1.all.length).mode = s.mode
      ∧ (fileInfo s a1.all.length).modTime = s.modTime
      ∧ (fileInfo s a1.all.length).isDir = s.isDir := by
  obtain ⟨out, f, rfl⟩ := Open_ann fs env name a hopen
  obtain ⟨h1, h2⟩ := after_keeps _ a1 ops hops
  refine ⟨?_, rfl, h1, rfl, h2, rfl, rfl, rfl, rfl⟩
  simp [annFile.Stat, hstat]

/-- C13 (counterexample): `Seek(3, io.SeekStart)` on a file with content
`abcdef` is not rejected: it returns `(0, nil)` and the unread part becomes
`def`. -/
theorem Seek_nonzero_offset_accepted :
    (newAnnFile (str "abcdef") textFile).Seek 3 SeekStart
      = .returns (⟨str "def", str "abcdef", textFile⟩, 0, none) := by
  decide

/-- C13 (amended): a `Seek` whose whence is not `io.SeekStart` is rejected
with an error and leaves the file as it was; with `io.SeekStart` an offset
between 0 and the length of `all` is accepted, zero or not: the unread
part becomes `all[offset:]` and the result is `(0, nil)`. -/
theorem Seek_rejects_other_whence (a : annFile) (offset whence : Int)
    (hw : whence ≠ SeekStart) :
    a.Seek offset whence = .returns (a, 0, some (str "only SeekStart is implemented"))
      ∧ ∀ k : Int, 0 ≤ k → k ≤ a.all.length →
          a.Seek k SeekStart = .returns (⟨a.all.drop k.toNat, a.all, a.orig⟩, 0, none) :=
  ⟨Seek_other_whence a offset whence hw, fun k h0 h1 => Seek_start_in_range a k h0 h1⟩

theorem Seek_rejects_other_whence_witness :
    (newAnnFile (str "abcdef") textFile).Seek 0 1
        = .returns (newAnnFile (str "abcdef") textFile, 0,
            some (str "only SeekStart is implemented"))
      ∧ ∀ k : Int, 0 ≤ k → k ≤ (newAnnFile (str "abcdef") textFile).all.length →
          (newAnnFile (str "abcdef") textFile).Seek k SeekStart
            = .returns (⟨(newAnnFile (str "abcdef") textFile).all.drop k.toNat,
                (newAnnFile (str "abcdef") textFile).all,
                (newAnnFile (str "abcdef") textFile).orig⟩, 0, none) :=
  Seek_rejects_other_whence (newAnnFile (str "abcdef") textFile) 0 1 (by decide)

/-- C14: after any sequence of `Read` calls, `Seek(0, io.SeekStart)` returns
`(0, nil)` and makes the whole of `all` unread again, so that reading to
end-of-data (with a destination of any positive size) yields exactly
`all`. -/
theorem rewind_round_trip (a0 : annFile) (sizes : List Nat) (chunk : Nat) (hchunk : 0 < chunk) :
    ∃ a, a0.after (sizes.map FileOp.read) = some a
      ∧ a.Seek 0 SeekStart = .returns (⟨a0.all, a0.all, a0.orig⟩, 0, none)
      ∧ readToEnd chunk (a0.all.length + 1) ⟨a0.all, a0.all, a0.orig⟩
          = some (a0.all, ⟨[], a0.all, a0.orig⟩) := by
  obtain ⟨a, h1, h2, h3⟩ := after_reads a0 sizes
  refine ⟨a, h1, ?_, ?_⟩
  · rw [Seek_start_in_range a 0 (le_refl _) (by omega), h2, h3]
    rfl
  · exact readToEnd_all chunk hchunk _ ⟨a0.all, a0.all, a0.orig⟩ (by simp)

theorem rewind_round_trip_witness :
    ∃ a, (newAnnFile (str "abcdef") textFile).after ([4, 1, 7, 2].map FileOp.read) = some a
      ∧ a.Seek 0 SeekStart
          = .returns (⟨(newAnnFile (str "abcdef") textFile).all,
              (newAnnFile (str "abcdef") textFile).all,
              (newAnnFile (str "abcdef") textFile).orig⟩, 0, none)
      ∧ readToEnd 4 ((newAnnFile (str "abcdef") textFile).all.length + 1)
            ⟨(newAnnFile (str "abcdef") textFile).all,
              (newAnnFile (str "abcdef") textFile).all,
              (newAnnFile (str "abcdef") textFile).orig⟩
          = some ((newAnnFile (str "abcdef") textFile).all,
              ⟨[], (newAnnFile (str "abcdef") textFile).all,
                (newAnnFile (str "abcdef") textFile).orig⟩) :=
  rewind_round_trip (newAnnFile (str "abcdef") textFile) [4, 1, 7, 2] 4 (by decide)


theorem Stat_reports_materialized_size_witness :
    (⟨[], str "<pre>package a\n</pre>", smallGoFile⟩ : annFile).Stat
      = .ok (fileInfo ⟨str "a.go", 10, 420, 0, false⟩
          (⟨[], str "<pre>package a\n</pre>", smallGoFile⟩ : annFile).all.length) :=
  (Stat_reports_materialized_size exampleFS exampleEnv (str "/a.go")
    (newAnnFile (str "<pre>package a\n</pre>") smallGoFile)
    ⟨[], str "<pre>package a\n</pre>", smallGoFile⟩
    [.read 4, .seek 2 0, .read 100] ⟨str "a.go", 10, 420, 0, false⟩
    (by decide) (by decide) (by decide)).1

theorem Read_at_end (a : annFile) (n : Nat) (hn : 0 < n) (hb : a.buf = []) :
    a.Read n = (a, [], 0, some (str "EOF")) := by
  have : n ≠ 0 := by omega
  simp [annFile.Read, hb, this]

theorem Read_before_end (a : annFile) (n : Nat) (hb : a.buf ≠ []) :
    a.Read n
      = (⟨a.buf.drop n, a.all, a.orig⟩, a.buf.take n, min n a.buf.length, none) := by
  simp [annFile.Read, hb, List.length_take]

/-- C15: with the cursor at byte `c` of `all` (the unread part is `all[c:]`)
and a destination of `n > 0` bytes, `Read` copies the
`k = min(n, len(all) - c)` bytes `all[c .. c+k)`, leaves `all[c+k:]` unread
and returns `(k, nil)`, or `(0, io.EOF)` when `c = len(all)`, which is exactly
when `k = 0`.  Reading a freshly opened file to end-of-data yields `all`. -/
theorem Read_at_cursor (a : annFile) (c n : Nat) (hc : c ≤ a.all.length)
    (hbuf : a.buf = a.all.drop c) (hn : 0 < n) :
    a.Read n
        = (⟨a.all.drop (c + min n (a.all.length - c)), a.all, a.orig⟩,
            (a.all.drop c).take (min n (a.all.length - c)),
            min n (a.all.length - c),
            if c = a.all.length then some (str "EOF") else none)
      ∧ (min n (a.all.length - c) = 0 ↔ c = a.all.length)
      ∧ ∀ (out : List Nat) (f : BaseFile) (chunk : Nat), 0 < chunk →
          readToEnd chunk (out.length + 1) (newAnnFile out f) = some (out, ⟨[], out, f⟩) := by
  refine ⟨?_, by omega, fun out f chunk h => readToEnd_all chunk h _ (newAnnFile out f) (by
    simp [newAnnFile])⟩
  obtain ⟨buf, all, orig⟩ := a
  simp only at hc hbuf ⊢
  subst hbuf
  by_cases he : c = all.length
  · subst he
    rw [Read_at_end _ n hn (by simp)]
    simp
  · have hlt : c < all.length := by omega
    have hne : all.drop c ≠ [] := by
      intro h
      have := congrArg List.length h
      simp only [List.length_drop, List.length_nil] at this
      omega
    rw [Read_before_end _ n (by simpa using hne)]
    simp only [List.length_drop, if_neg he, List.drop_drop]
    by_cases hle : n ≤ all.length - c
    · rw [Nat.min_eq_left hle]
    · have hm : min n (all.length - c) = all.length - c := Nat.min_eq_right (by omega)
      rw [hm]
      have e1 : all.drop (c + n) = [] := List.drop_eq_nil_of_le (by omega)
      have e2 : all.drop (c + (all.length - c)) = [] := List.drop_eq_nil_of_le (by omega)
      have e3 : (all.drop c).take n = (all.drop c).take (all.length - c) := by
        rw [List.take_of_length_le (by simp only [List.length_drop]; omega),
          List.take_of_length_le (by simp only [List.length_drop]; omega)]
      rw [e1, e2, e3]

theorem Read_at_cursor_witness :
    (⟨str "cdef", str "abcdef", textFile⟩ : annFile).Read 3
      = (⟨(str "abcdef").drop (2 + min 3 ((str "abcdef").length - 2)), str "abcdef", textFile⟩,
          ((str "abcdef").drop 2).take (min 3 ((str "abcdef").length - 2)),
          min 3 ((str "abcdef").length - 2),
          if 2 = (str "abcdef").length then some (str "EOF") else none) :=
  (Read_at_cursor ⟨str "cdef", str "abcdef", textFile⟩ 2 3 (by decide) (by decide)
    (by decide)).1

/-- C16 (counterexample): after `Close` on a file with content `abc`, `Read`
returns the three bytes and a nil error, and `Seek(0, io.SeekStart)`
succeeds. -/
theorem Read_after_Close_succeeds :
    (newAnnFile (str "abc") textFile).Close.2 = none
      ∧ ((newAnnFile (str "abc") textFile).Close.1.Read 3).2 = (str "abc", 3, none)
      ∧ (newAnnFile (str "abc") textFile).Close.1.Seek 0 SeekStart
          = .returns ((newAnnFile (str "abc") textFile).Close.1, 0, none) := by
  refine ⟨?_, ?_, ?_⟩ <;> decide

/-- C16 (amended): `Close` closes the original file and returns its error;
the buffer and `all` stay as they were, so a later `Read` returns the same
bytes, count and error as it would have without the `Close`, and `Seek` panics,
fails or succeeds as before with the same unread part; `Stat`, which asks the
original file, fails after `Close`. -/
theorem Close_keeps_buffer (a : annFile) :
    a.Close.2 = a.orig.Close.2
      ∧ a.Close.1.buf = a.buf ∧ a.Close.1.all = a.all
      ∧ (∀ n, (a.Close.1.Read n).2 = (a.Read n).2
          ∧ (a.Close.1.Read n).1.buf = (a.Read n).1.buf)
      ∧ (∀ offset whence, (a.Close.1.Seek offset whence = .panics ↔ a.Seek offset whence = .panics)
          ∧ ∀ r, a.Seek offset whence = .returns r →
              ∃ r1, a.Close.1.Seek offset whence = .returns r1
                ∧ r1.1.buf = r.1.buf ∧ r1.2 = r.2)
      ∧ a.Close.1.Stat = .err (str "file already closed") := by
  refine ⟨rfl, rfl, rfl, ?_, ?_, ?_⟩
  · intro n
    unfold annFile.Read annFile.Close
    by_cases hb : a.buf = []
    · by_cases hn : n = 0 <;> simp [hb, hn]
    · simp [hb]
  · intro offset whence
    unfold annFile.Seek annFile.Close
    by_cases hw : whence ≠ SeekStart
    · simp only [if_pos hw]
      refine ⟨by simp, ?_⟩
      intro r hr
      simp only [Outcome.returns.injEq] at hr
      subst hr
      exact ⟨_, rfl, rfl, rfl⟩
    · simp only [if_neg hw]
      by_cases hb : offset < 0 ∨ (a.all.length : Int) < offset
      · simp [hb]
      · simp only [if_neg hb]
        refine ⟨by simp, ?_⟩
        intro r hr
        simp only [Outcome.returns.injEq] at hr
        subst hr
        exact ⟨_, rfl, rfl, rfl⟩
  · unfold annFile.Stat annFile.Close BaseFile.Stat BaseFile.Close
    by_cases hc : a.orig.closed = true <;> simp [hc]

/-- C20: for `0 ≤ k ≤ len(all)`, `Seek(k, io.SeekStart)` returns `(0, nil)`,
leaves `all` and makes `all[k:]` the unread part, which reading to end-of-data
then yields; for every offset outside that range the slice expression panics,
so `Seek` does not return. -/
theorem Seek_within_bounds (a : annFile) (k : Int) (h0 : 0 ≤ k) (h1 : k ≤ a.all.length) :
    a.Seek k SeekStart = .returns (⟨a.all.drop k.toNat, a.all, a.orig⟩, 0, none)
      ∧ (∀ chunk, 0 < chunk →
          readToEnd chunk (a.all.length + 1) ⟨a.all.drop k.toNat, a.all, a.orig⟩
            = some (a.all.drop k.toNat, ⟨[], a.all, a.orig⟩))
      ∧ (∀ j : Int, (j < 0 ∨ (a.all.length : Int) < j) → a.Seek j SeekStart = .panics)
      ∧ (∀ j : Int, a.Seek j SeekStart ≠ .panics → 0 ≤ j ∧ j ≤ a.all.length) := by
  refine ⟨Seek_start_in_range a k h0 h1, ?_, fun j hj => Seek_start_out_of_range a j hj, ?_⟩
  · intro chunk hchunk
    exact readToEnd_all chunk hchunk _ ⟨a.all.drop k.toNat, a.all, a.orig⟩ (by
      simp only [List.length_drop]; omega)
  · intro j hj
    by_contra hcon
    exact hj (Seek_start_out_of_range a j (by omega))

theorem Seek_within_bounds_witness :
    (newAnnFile (str "abcdef") textFile).Seek 4 SeekStart
      = .returns (⟨(newAnnFile (str "abcdef") textFile).all.drop (4 : Int).toNat,
          (newAnnFile (str "abcdef") textFile).all,
          (newAnnFile (str "abcdef") textFile).orig⟩, 0, none) :=
  (Seek_within_bounds (newAnnFile (str "abcdef") textFile) 4 (by decide) (by decide)).1

theorem zipFile_long_first_line (re : Regexp) (rest file : List Nat) (m : Index)
    (ord : RangeOrder) :
    zipFile re (List.replicate 65536 120 ++ 10 :: rest) file m ord
      = ([], some (str "error reading file: bufio.Scanner: token too long")) := by
  unfold zipFile
  rw [scanLines_long_first_line]
  rfl

theorem Open_annotates (fs : annotateFS) (env : Collaborators) (name : List Nat)
    (f : BaseFile) (stat : FileInfo) (b annotations : List Nat) (m : Option Index)
    (it : List (List Nat)) (out : List Nat)
    (h1 : fs.base name = .ok f) (h2 : f.Stat = .ok stat) (h3 : stat.isDir = false)
    (h4 : hasGoSuffix name = true) (h5 : f.content = .ok b)
    (h6 : env.goBuild (str "./" ++ Dir (joinDot name)) = .ok annotations)
    (h7 : processLines annotations = (m, none))
    (h8 : env.tokenise (zipFile fs.grep b (joinDot name) (m.getD []) env.order).1 = .ok it)
    (h9 : env.format it = .ok out) :
    fs.Open env name
      = ⟨some (.ann (newAnnFile out f)), none,
          [.readAll, .build (str "./" ++ Dir (joinDot name)), .parse, .merge, .tokenise,
            .format]⟩ := by
  unfold annotateFS.Open
  simp [h1, h2, h3, h4, h5, h6, h7, h8, h9]

theorem Open_checked_steps (fs : annotateFS) (env : Collaborators) (name : List Nat)
    (f : BaseFile) (stat : FileInfo) (h1 : fs.base name = .ok f) (h2 : f.Stat = .ok stat)
    (h3 : stat.isDir = false) (h4 : hasGoSuffix name = true) :
    (∀ e, f.content = .err e → fs.Open env name = ⟨none, some e, [.readAll]⟩)
      ∧ (∀ b e, f.content = .ok b → env.goBuild (str "./" ++ Dir (joinDot name)) = .err e →
          (fs.Open env name).file = none ∧ (fs.Open env name).err = some e)
      ∧ (∀ b annotations r e, f.content = .ok b →
          env.goBuild (str "./" ++ Dir (joinDot name)) = .ok annotations →
          processLines annotations = (r, some e) →
          (fs.Open env name).file = none ∧ (fs.Open env name).err = some e)
      ∧ (∀ b annotations m e, f.content = .ok b →
          env.goBuild (str "./" ++ Dir (joinDot name)) = .ok annotations →
          processLines annotations = (m, none) →
          env.tokenise (zipFile fs.grep b (joinDot name) (m.getD []) env.order).1 = .err e →
          (fs.Open env name).file = none ∧ (fs.Open env name).err = some e)
      ∧ (∀ b annotations m it e, f.content = .ok b →
          env.goBuild (str "./" ++ Dir (joinDot name)) = .ok annotations →
          processLines annotations = (m, none) →
          env.tokenise (zipFile fs.grep b (joinDot name) (m.getD []) env.order).1 = .ok it →
          env.format it = .err e →
          (fs.Open env name).file = none ∧ (fs.Open env name).err = some e) := by
  refine ⟨?_, ?_, ?_, ?_, ?_⟩
  · intro e h5
    unfold annotateFS.Open
    simp [h1, h2, h3, h4, h5]
  · intro b e h5 h6
    unfold annotateFS.Open
    simp [h1, h2, h3, h4, h5, h6]
  · intro b annotations r e h5 h6 h7
    unfold annotateFS.Open
    simp [h1, h2, h3, h4, h5, h6, h7]
  · intro b annotations m e h5 h6 h7 h8
    unfold annotateFS.Open
    simp [h1, h2, h3, h4, h5, h6, h7, h8]
  · intro b annotations m it e h5 h6 h7 h8 h9
    unfold annotateFS.Open
    simp [h1, h2, h3, h4, h5, h6, h7, h8, h9]

/-- C17 (counterexample): the base store opens `/x.txt`, which does not end
in `.go`, but the file's `Stat` fails: `Open` returns that error and no
file. -/
theorem Open_stat_error :
    exampleFS.base (str "/x.txt") = .ok noStatFile
      ∧ hasGoSuffix (str "/x.txt") = false
      ∧ exampleFS.Open exampleEnv (str "/x.txt")
          = ⟨none, some (str "stat x.txt: input/output error"), []⟩ := by
  refine ⟨?_, ?_, ?_⟩ <;> decide

/-- C17 (amended): when the base store opens the path and the file's `Stat`
succeeds, and the path names a directory or does not end in `.go`, `Open`
returns the base store's own file object with a nil error and performs none
of the pipeline steps (no compiler run, no parsing, no merging, no
highlighting). -/
theorem Open_passes_through (fs : annotateFS) (env : Collaborators) (name : List Nat)
    (f : BaseFile) (stat : FileInfo) (h1 : fs.base name = .ok f) (h2 : f.Stat = .ok stat)
    (h3 : stat.isDir = true ∨ hasGoSuffix name = false) :
    fs.Open env name = ⟨some (.base f), none, []⟩ := by
  unfold annotateFS.Open
  rcases h3 with h3 | h3 <;> simp [h1, h2, h3]

theorem Open_passes_through_witness :
    exampleFS.Open exampleEnv (str "/y.txt") = ⟨some (.base textFile), none, []⟩ :=
  Open_passes_through exampleFS exampleEnv (str "/y.txt") textFile
    ⟨str "y.txt", 6, 420, 0, false⟩ (by decide) (by decide) (Or.inr (by decide))

theorem fits_of_scan_ok_aux (data cur : List Nat) (h : (scanFrom data cur).2 = false) :
    ∀ l ∈ rawFrom data cur, l.length < MaxScanTokenSize := by
  induction data generalizing cur with
  | nil =>
    unfold scanFrom at h
    unfold rawFrom
    by_cases hlen : MaxScanTokenSize ≤ cur.length
    · simp [hlen] at h
    · intro l hl
      by_cases hc : cur = []
      · simp [hc] at hl
      · simp only [hc, if_false, List.mem_singleton] at hl
        subst hl; omega
  | cons c rest ih =>
    unfold scanFrom at h
    unfold rawFrom
    by_cases hc : c = 10
    · simp only [hc, if_true] at h ⊢
      by_cases hlen : MaxScanTokenSize ≤ cur.length
      · simp [hlen] at h
      · simp only [hlen, if_false] at h
        intro l hl
        simp only [List.mem_cons] at hl
        rcases hl with rfl | hl
        · omega
        · exact ih [] h l hl
    · simp only [hc, if_false] at h ⊢
      exact ih _ h

theorem fits_of_scan_ok (b : List Nat) (h : (scanLines b).2 = false) : fitsScanner b :=
  fits_of_scan_ok_aux b [] h

theorem annotated_congr (runs1 runs2 : Int → List Nat) (ls : List (List Nat)) (n : Int)
    (h : ∀ k : Nat, k < ls.length → runs1 (n + k) = runs2 (n + k)) :
    annotated runs1 ls n = annotated runs2 ls n := by
  induction ls generalizing n with
  | nil => rfl
  | cons l rest ih =>
    have h0 := h 0 (by simp)
    simp only [Nat.cast_zero, add_zero] at h0
    have := ih (n + 1) (fun k hk => by
      have := h (k + 1) (by simp [hk])
      have e : n + 1 + (k : Int) = n + ((k + 1 : Nat) : Int) := by push_cast; ring
      rw [e]; exact this)
    simp [annotated, h0, this]

theorem mapGet_filter_key {K V : Type} [DecidableEq K] (p : K → Bool) (m : List (K × V))
    (k : K) : mapGet (m.filter fun e => p e.1) k = if p k then mapGet m k else none := by
  induction m with
  | nil => simp [mapGet]
  | cons e rest ih =>
    obtain ⟨a, v⟩ := e
    by_cases hp : p a = true
    · by_cases hk : a = k
      · subst hk; simp [List.filter, hp, mapGet]
      · simp [List.filter, hp, mapGet, hk, ih]
    · simp only [Bool.not_eq_true] at hp
      by_cases hk : a = k
      · subst hk; simp [List.filter, hp, mapGet, ih]
      · simp [List.filter, hp, mapGet, hk, ih]

/-- C18: the result of `zipFile` on a source text of `N` lines depends on the
index only through the entries keyed `(file, n)` with `1 ≤ n ≤ N`: two
indexes with the same column map under each of these keys give the same
result (with the same iteration order), and so does the index cut down to
these keys; entries for another file, for line 0 or for a line past the end
change nothing. -/
theorem zipFile_frame (re : Regexp) (b file : List Nat) (m1 m2 : Index) (ord : RangeOrder)
    (h : ∀ n : Int, 1 ≤ n → n ≤ (textLines b).length →
      mapGet m1 ⟨file, n⟩ = mapGet m2 ⟨file, n⟩) :
    zipFile re b file m1 ord = zipFile re b file m2 ord
      ∧ zipFile re b file m1 ord
          = zipFile re b file (reachableEntries file (textLines b).length m1) ord := by
  have key : ∀ ma mb : Index,
      (∀ n : Int, 1 ≤ n → n ≤ (textLines b).length →
        mapGet ma ⟨file, n⟩ = mapGet mb ⟨file, n⟩) →
      zipFile re b file ma ord = zipFile re b file mb ord := by
    intro ma mb hab
    by_cases herr : (scanLines b).2 = true
    · simp [zipFile, herr]
    · simp only [Bool.not_eq_true] at herr
      have hfit := fits_of_scan_ok b herr
      rw [zipFile_of_fits re b file ma ord hfit, zipFile_of_fits re b file mb ord hfit,
        annotated_congr _ (insertedAfter re file mb ord) (textLines b) 1 (fun k hk => by
          unfold insertedAfter
          rw [hab (1 + k) (by omega) (by omega)])]
  refine ⟨key m1 m2 h, key m1 _ ?_⟩
  intro n hn1 hn2
  unfold reachableEntries
  rw [mapGet_filter_key
    (fun k : line => decide (k.file = file ∧ 1 ≤ k.line ∧ k.line ≤ ((textLines b).length : Int)))]
  simp [hn1, hn2]

set_option maxRecDepth 10000 in
theorem zipFile_frame_witness :
    zipFile defaultGrep (str "x\ny\n") (str "a.go") strayIndex storedOrder
      = zipFile defaultGrep (str "x\ny\n") (str "a.go")
          [(⟨str "a.go", 2⟩, [(4, str "z escapes to heap:")])] storedOrder :=
  (zipFile_frame defaultGrep (str "x\ny\n") (str "a.go") strayIndex
    [(⟨str "a.go", 2⟩, [(4, str "z escapes to heap:")])] storedOrder (by
      have hl : (textLines (str "x\ny\n")).length = 2 := by decide
      intro n h1 h2
      rw [hl] at h2
      have hn : n = 1 ∨ n = 2 := by omega
      rcases hn with rfl | rfl <;> decide)).1

theorem zipFile_empty_eq (re : Regexp) (b file : List Nat) (ord : RangeOrder)
    (hfit : fitsScanner b) :
    zipFile re b file [] ord = (joinLines (textLines b), none) := by
  rw [zipFile_of_fits re b file [] ord hfit,
    annotated_no_runs _ _ _ (fun k _ => insertedAfter_empty re file ord _)]

theorem joinLines_rawFrom_general (data cur : List Nat) :
    joinLines (rawFrom data cur)
      = if data.getLast? = some 10 then cur ++ data
        else if cur = [] ∧ data = [] then [] else cur ++ data ++ [10] := by
  induction data generalizing cur with
  | nil =>
    by_cases hc : cur = []
    · simp [rawFrom, hc, joinLines]
    · simp [rawFrom, hc, joinLines]
  | cons c rest ih =>
    unfold rawFrom
    by_cases hc : c = 10
    · subst hc
      simp only [if_true]
      rw [joinLines_cons, ih []]
      cases rest with
      | nil => simp
      | cons d rest2 =>
        rw [List.getLast?_cons_cons]
        by_cases hl : (d :: rest2).getLast? = some 10
        · simp [hl]
        · simp [hl]
    · simp only [hc, if_false]
      rw [ih (cur ++ [c])]
      cases rest with
      | nil => simp [hc]
      | cons d rest2 =>
        rw [List.getLast?_cons_cons]
        by_cases hl : (d :: rest2).getLast? = some 10
        · simp [hl]
        · simp [hl]

theorem joinLines_rawLines (b : List Nat) :
    joinLines (rawLines b) = if b = [] ∨ b.getLast? = some 10 then b else b ++ [10] := by
  unfold rawLines
  rw [joinLines_rawFrom_general]
  by_cases hl : b.getLast? = some 10
  · simp [hl]
  · by_cases hb : b = []
    · simp [hb]
    · simp [hl, hb]

theorem joinLines_getLast (ls : List (List Nat)) (h : ls ≠ []) :
    (joinLines ls).getLast? = some 10 := by
  induction ls with
  | nil => exact absurd rfl h
  | cons l rest ih =>
    rw [joinLines_cons]
    cases rest with
    | nil => simp [joinLines]
    | cons l2 rest2 =>
      have := ih (by simp)
      rw [List.getLast?_append_cons, List.getLast?_cons]
      rw [this]
      rfl

theorem crlf_line (pre post cur : List Nat) :
    ∃ l ∈ rawFrom (pre ++ 13 :: 10 :: post) cur, l.getLast? = some 13 := by
  induction pre generalizing cur with
  | nil =>
    refine ⟨cur ++ [13], ?_, by simp⟩
    simp [rawFrom]
  | cons c t ih =>
    rw [List.cons_append, rawFrom]
    by_cases hc : c = 10
    · obtain ⟨l, hl, h13⟩ := ih []
      exact ⟨l, by simp [hc, hl], h13⟩
    · obtain ⟨l, hl, h13⟩ := ih (cur ++ [c])
      exact ⟨l, by simp [hc, hl], h13⟩

theorem dropCR_length_le (l : List Nat) : (dropCR l).length ≤ l.length := by
  unfold dropCR
  split
  · simp
  · exact le_refl _

theorem dropCR_length_lt (l : List Nat) (h : l.getLast? = some 13) :
    (dropCR l).length < l.length := by
  have hne : l ≠ [] := by rintro rfl; simp at h
  have hpos : 0 < l.length := List.length_pos.mpr hne
  unfold dropCR
  rw [h]
  simp only [List.length_dropLast]
  omega

theorem joinLines_dropCR_length_le (ls : List (List Nat)) :
    (joinLines (ls.map dropCR)).length ≤ (joinLines ls).length := by
  induction ls with
  | nil => simp
  | cons l rest ih =>
    rw [List.map_cons, joinLines_cons, joinLines_cons]
    have := dropCR_length_le l
    simp only [List.length_append, List.length_cons]
    omega

theorem joinLines_dropCR_length_lt (ls : List (List Nat))
    (h : ∃ l ∈ ls, l.getLast? = some 13) :
    (joinLines (ls.map dropCR)).length < (joinLines ls).length := by
  induction ls with
  | nil => simp at h
  | cons l rest ih =>
    rw [List.map_cons, joinLines_cons, joinLines_cons]
    simp only [List.length_append, List.length_cons]
    obtain ⟨x, hx, h13⟩ := h
    simp only [List.mem_cons] at hx
    rcases hx with rfl | hx
    · have := dropCR_length_lt x h13
      have := joinLines_dropCR_length_le rest
      omega
    · have := dropCR_length_le l
      have := ih ⟨x, hx, h13⟩
      omega

/-- C19: for a source text whose lines all fit the scanner's buffer, `zipFile`
with the empty index returns no error; its output is the text itself exactly
when the text is empty, or ends in a line feed and holds no carriage return
directly before a line feed.  In general the output is the text's lines with
one trailing carriage return dropped from each and a line feed after each,
while the text itself is its lines with a line feed after each, except for a
missing final line feed. -/
theorem zipFile_empty_index_exact (re : Regexp) (b file : List Nat) (ord : RangeOrder)
    (hfit : fitsScanner b) :
    (zipFile re b file [] ord).2 = none
      ∧ ((zipFile re b file [] ord).1 = b
          ↔ (b = [] ∨ (b.getLast? = some 10 ∧ ∀ pre post, b ≠ pre ++ 13 :: 10 :: post)))
      ∧ (zipFile re b file [] ord).1 = joinLines ((rawLines b).map dropCR)
      ∧ joinLines (rawLines b) = (if b = [] ∨ b.getLast? = some 10 then b else b ++ [10]) := by
  have hz := zipFile_empty_eq re b file ord hfit
  refine ⟨by rw [hz], ?_, by rw [hz]; rfl, joinLines_rawLines b⟩
  rw [hz]
  simp only []
  constructor
  · intro h
    by_cases hb : b = []
    · exact Or.inl hb
    · right
      have hraw : rawLines b ≠ [] := by
        intro h0
        have := joinLines_rawLines b
        rw [h0] at this
        by_cases hl : b.getLast? = some 10
        · simp [hl, joinLines] at this; exact hb this
        · simp [hl, hb, joinLines] at this
      have htl : textLines b ≠ [] := by
        unfold textLines; simpa using hraw
      have hlast : b.getLast? = some 10 := by
        rw [← h]; exact joinLines_getLast _ htl
      refine ⟨hlast, ?_⟩
      intro pre post hpp
      have hlt := joinLines_dropCR_length_lt (rawLines b) (by
        unfold rawLines; rw [hpp]; exact crlf_line pre post [])
      have hj := joinLines_rawLines b
      simp only [hlast, or_true, if_true] at hj
      unfold textLines at h
      rw [h, hj] at hlt
      exact absurd hlt (lt_irrefl _)
  · intro h
    rcases h with rfl | ⟨hlast, hcr⟩
    · rfl
    · unfold textLines
      rw [map_dropCR_id _ (rawLines_no_CR b (Or.inr hlast) hcr)]
      have hj := joinLines_rawLines b
      simp only [hlast, or_true, if_true] at hj
      exact hj

theorem zipFile_empty_index_exact_witness :
    (zipFile defaultGrep (str "a\r\nb") (str "f.go") [] storedOrder).2 = none
      ∧ (zipFile defaultGrep (str "a\r\nb") (str "f.go") [] storedOrder).1 = str "a\nb\n" :=
  ⟨(zipFile_empty_index_exact defaultGrep (str "a\r\nb") (str "f.go") storedOrder
      (by decide)).1, by decide⟩

set_option maxRecDepth 10000 in
theorem oneMatchIndex_one_match (n : Int) (mm : PosMap)
    (h : mapGet oneMatchIndex ⟨str "f.go", n⟩ = some mm) :
    (mm.filter fun e => defaultGrep.MatchString e.2).length ≤ 1 := by
  unfold oneMatchIndex at h
  simp only [mapGet] at h
  split at h
  · simp only [Option.some.injEq] at h
    subst h; decide
  · split at h
    · simp only [Option.some.injEq] at h
      subst h; decide
    · simp at h

set_option maxRecDepth 10000 in
theorem zipFile_order_independent_witness :
    zipFile defaultGrep (str "x\ny\nz\n") (str "f.go") oneMatchIndex storedOrder
        = zipFile defaultGrep (str "x\ny\nz\n") (str "f.go") oneMatchIndex reverseOrder
      ∧ zipFile defaultGrep (str "x\ny\nz\n") (str "f.go") oneMatchIndex reverseOrder
        = (str "x\n/**********\na escapes to heap:\n  from x\n***********/\ny\n/**********\nb escapes to heap:\n***********/\nz\n", none)
      ∧ reverseOrder.visit 1 [(3, str "a escapes to heap:\n  from x"), (7, str "moved to heap"),
            (9, str "note")]
          ≠ storedOrder.visit 1 [(3, str "a escapes to heap:\n  from x"),
            (7, str "moved to heap"), (9, str "note")] :=
  ⟨zipFile_order_independent defaultGrep (str "x\ny\nz\n") (str "f.go") oneMatchIndex
      storedOrder reverseOrder oneMatchIndex_one_match, by decide, by decide⟩

theorem scanFrom_append_noLF (l rest cur : List Nat) (h : 10 ∉ l) :
    scanFrom (l ++ rest) cur = scanFrom rest (cur ++ l) := by
  induction l generalizing cur with
  | nil => simp
  | cons c t ih =>
    have hc : c ≠ 10 := fun e => h (by simp [e])
    rw [List.cons_append, scanFrom, if_neg hc, ih _ (fun hm => h (by simp [hm]))]
    simp

theorem scanLines_longCommentSource : scanLines longCommentSource = ([str "package a"], true) := by
  unfold scanLines longCommentSource
  have h1 : scanFrom (str "//" ++ (List.replicate 65536 120 ++ [10])) [] = ([], true) := by
    rw [scanFrom_append_noLF _ _ _ (by decide), scanFrom_replicate 120 (by decide),
      scanFrom_too_long]
    rw [List.length_append, List.length_replicate]
    exact Nat.le_add_left _ _
  rw [scanFrom_append_noLF _ _ _ (by decide), scanFrom, if_pos rfl,
    if_neg (by decide), h1]
  decide

theorem zipFile_longCommentSource (re : Regexp) (file : List Nat) (m : Index)
    (ord : RangeOrder) :
    zipFile re longCommentSource file m ord
      = ([], some (str "error reading file: bufio.Scanner: token too long")) := by
  unfold zipFile
  rw [scanLines_longCommentSource]
  rfl

/-- C11 (defect at the merge step): the Go file `/long.go` compiles (a package
clause and one long comment line) and the compiler run succeeds, but the
comment line exceeds the scanner's buffer, so `zipFile` returns the empty text
and a read error; `Open` does not look at that error and returns, with a nil
error, a virtual file built from the highlighted empty text. -/
theorem Open_ignores_zipFile_error :
    zipFile longCommentFS.grep longCommentSource (joinDot (str "/long.go")) [] quietEnv.order
        = ([], some (str "error reading file: bufio.Scanner: token too long"))
      ∧ longCommentFS.Open quietEnv (str "/long.go")
        = ⟨some (.ann (newAnnFile (str "<pre></pre>") longCommentFile)), none,
            [.readAll, .build (str "./" ++ Dir (joinDot (str "/long.go"))), .parse, .merge,
              .tokenise, .format]⟩ := by
  refine ⟨zipFile_longCommentSource _ _ _ _, ?_⟩
  refine Open_annotates longCommentFS quietEnv (str "/long.go") longCommentFile
    ⟨str "long.go", 65549, 420, 0, false⟩ longCommentSource [] (some []) [[]]
    (str "<pre></pre>") rfl rfl rfl (by decide) rfl rfl (by decide) ?_ (by decide)
  show exampleTokenise _ = _
  rw [zipFile_longCommentSource]
  rfl

end Escview
